import Mathlib

/-!
Verification development for the notion-astro-loader repository.

The definitions below are shallow embeddings of the repository's TypeScript
source: the incremental sync controller (notionLoader.load), the document
renderer and its error policy (NotionPageRenderer.render and fetchAsset in
render.ts), the asset cache (downloadFile and resolveAssetPath in asset.ts),
the table-of-contents extraction (extractTocHeadings in render.ts), and the
asset-path rewrite stage (rehypeAssets in rehype/rehype-assets.ts).

Strings are modelled by Lean String; the JavaScript string builtins the source
relies on (split, startsWith, slice, replace, decodeURI, toLowerCase,
JSON.stringify) are modelled explicitly on the underlying character lists so
that every definition evaluates on concrete inputs.  Filesystem and store state
are passed explicitly; thrown JavaScript errors become Except values.
-/

/-! ## Character-list models of the JavaScript string builtins -/

/-- Model of the JavaScript String.split(sep) builtin for a one-character
separator, on character lists: splits at every separator and keeps empty
pieces, as JS does. -/
def jsSplitAux (sep : Char) : List Char → List Char → List (List Char)
  | [], acc => [acc.reverse]
  | c :: rest, acc =>
    if c = sep then acc.reverse :: jsSplitAux sep rest [] else jsSplitAux sep rest (c :: acc)

/-- Model of the JavaScript String.split(sep) builtin for a one-character
separator. -/
def jsSplit (sep : Char) (s : String) : List String :=
  (jsSplitAux sep s.data []).map String.mk

/-- Model of the JavaScript String.startsWith builtin. -/
def jsStartsWith (s pre : String) : Bool :=
  pre.data.isPrefixOf s.data

/-- Model of the JavaScript String.slice(n) builtin for a non-negative index:
drops the first n characters. -/
def jsDrop (n : Nat) (s : String) : String :=
  String.mk (s.data.drop n)

/-- Model of the JavaScript String.toLowerCase builtin on ASCII data. -/
def jsToLower (s : String) : String :=
  String.mk (s.data.map Char.toLower)

/-- Split a character list at the first occurrence of a character: returns the
part before the separator and the part after it (separator removed), or none
when the character does not occur. -/
def breakOnChar (sep : Char) : List Char → Option (List Char × List Char)
  | [] => none
  | c :: rest =>
    if c = sep then some ([], rest)
    else (breakOnChar sep rest).map (fun p => (c :: p.1, p.2))

/-- Split a character list at the first occurrence of a (non-empty) pattern:
returns the part before the pattern and the part after it, or none when the
pattern does not occur. -/
def breakOnPattern (pat : List Char) : List Char → Option (List Char × List Char)
  | [] => none
  | c :: rest =>
    if pat.isPrefixOf (c :: rest) then some ([], (c :: rest).drop pat.length)
    else (breakOnPattern pat rest).map (fun p => (c :: p.1, p.2))

/-! ## Sync controller: notionLoader.load (src/unnamed/part_002)

The loader reads the set of locally known page ids, enumerates the remote
database, skips partial records, compares the stored digest against each full
page's last_edited_time (with the FORCE_RERENDER environment override),
schedules renders for changed pages, deletes every id not seen remotely, and
finally performs a store.set for every render that produced data.  Remote
enumeration is modelled by the list of records the paginated API yields, a
render outcome by an optional payload (none models the empty result the
renderer returns when it catches an error, for which the loader performs no
store.set). -/

/-- One record yielded by the paginated database query.  isFull models the
isFullPage check; a partial record carries only its id. -/
structure RemotePage where
  id : String
  last_edited_time : String
  isFull : Bool
deriving DecidableEq, Repr

/-- Payload of a successful render as the loader stores it: the parsed data
and the rendered output. -/
structure RenderPayload where
  data : String
  rendered : String
deriving DecidableEq, Repr

/-- One entry of the local content store, keyed by page id, holding the digest
(the last-synced last_edited_time) and the rendered payload. -/
structure StoreEntry where
  id : String
  digest : String
  payload : RenderPayload
deriving DecidableEq, Repr

/-- The local store, modelled as a list of entries keyed by id (store.keys /
store.get / store.set / store.delete below). -/
abbrev Store := List StoreEntry

def storeKeys (s : Store) : List String := s.map (·.id)

def storeGet (s : Store) (id : String) : Option StoreEntry :=
  s.find? (·.id = id)

def storeSet (s : Store) (e : StoreEntry) : Store :=
  if s.any (·.id = e.id) then s.map (fun x => if x.id = e.id then e else x) else s ++ [e]

def storeDelete (s : Store) (id : String) : Store :=
  s.filter (·.id ≠ id)

/-- A write performed on the store during a pass: a store.set or a
store.delete. -/
inductive StoreOp where
  | set (e : StoreEntry)
  | del (id : String)
deriving DecidableEq, Repr

/-- Whether a store write touches the entry with the given id. -/
def opTouches : StoreOp → String → Bool
  | .set e, i => e.id = i
  | .del j, i => j = i

/-- The digest comparison of the loader:
cachedPage?.digest !== page.last_edited_time || process.env.FORCE_RERENDER.
An absent entry gives undefined, which differs from any string. -/
def shouldRender (force : Bool) (store0 : Store) (p : RemotePage) : Bool :=
  (!((storeGet store0 p.id).map (·.digest) == some p.last_edited_time)) || force

/-- One iteration of the for-await loop over the paginated query: a partial
record is skipped before any bookkeeping; a full record removes its id from
cachedPageIds and, when the digest differs or the override is set, is appended
to the scheduled renders. -/
def pageStep (force : Bool) (store0 : Store) (st : List String × List RemotePage)
    (p : RemotePage) : List String × List RemotePage :=
  if p.isFull then
    (st.1.erase p.id, if shouldRender force store0 p then st.2 ++ [p] else st.2)
  else st

/-- Result of one sync pass: the final store, the writes performed in order,
and the pages for which a render was scheduled. -/
structure LoadResult where
  store : Store
  ops : List StoreOp
  scheduled : List RemotePage
deriving Repr

/-- The store.set performed when a scheduled page's render settles with data:
id, digest := page.last_edited_time, and the parsed/rendered payload.  A render
that returned the empty result (none) performs no write. -/
def renderSettleStep (renderOf : RemotePage → Option RenderPayload)
    (acc : Store × List StoreOp) (p : RemotePage) : Store × List StoreOp :=
  match renderOf p with
  | some pay => (storeSet acc.1 ⟨p.id, p.last_edited_time, pay⟩,
      acc.2 ++ [StoreOp.set ⟨p.id, p.last_edited_time, pay⟩])
  | none => acc

/-- One sync pass of notionLoader.load.  cachedPageIds is the set of ids known
to the store when the pass starts (a JS Set, hence deduplicated); the loop over
the remote records erases seen full ids and schedules changed pages; every id
still unseen after the loop is deleted; finally the scheduled renders settle
and each successful one writes its entry. -/
def loadPass (force : Bool) (renderOf : RemotePage → Option RenderPayload)
    (store0 : Store) (pages : List RemotePage) : LoadResult :=
  let cachedIds0 := (storeKeys store0).dedup
  let looped := pages.foldl (pageStep force store0) (cachedIds0, [])
  let remaining := looped.1
  let scheduled := looped.2
  let store1 := remaining.foldl storeDelete store0
  let delOps := remaining.map StoreOp.del
  let settled := scheduled.foldl (renderSettleStep renderOf) (store1, delOps)
  { store := settled.1, ops := settled.2, scheduled := scheduled }

/-- The ids a pass's page loop erases from cachedPageIds: every full record's
id, in order. -/
def eraseSeen (pages : List RemotePage) (c : List String) : List String :=
  pages.foldl (fun c p => if p.isFull then c.erase p.id else c) c

/-! ## Document renderer: NotionPageRenderer.render (src/src/render.ts)

render wraps three strictly ordered stages in one try/catch: metadata
construction (#getPageData), the block fetch (awaitAll(fetchBlocks)), and the
transform chain (process).  Each stage's outcome is modelled by an Except
value; the catch turns any error into the empty result, which the loader reads
as a render with no data (no store.set). -/

/-- The outcomes of the three stages of one document's render: page metadata
construction, block fetch, and the transform chain applied to the fetched
blocks. -/
structure RenderStages where
  pageData : Except String String
  blocks : Except String (List String)
  processOut : List String → Except String String

/-- NotionPageRenderer.render: runs the stages in order inside the try/catch;
any stage error yields the empty result (none).  A successful render carries
the page data and the rendered output. -/
def render (st : RenderStages) : Option RenderPayload :=
  match st.pageData with
  | .error _ => none
  | .ok data =>
    match st.blocks with
    | .error _ => none
    | .ok bs =>
      match st.processOut bs with
      | .error _ => none
      | .ok out => some ⟨data, out⟩

/-! ## Asset cache: downloadFile and resolveAssetPath (src/src/asset.ts)

Filesystem paths are lists of segments; the filesystem state is the set of
existing directories and files.  downloadFile checks that the destination root
exists, decomposes the URL's pathname into its non-empty segments, creates the
per-object subdirectory, and downloads unless the derived file path already
exists (the cache hit). -/

/-- Filesystem state: the directories and files that exist, as absolute
segment paths. -/
structure FS where
  dirs : List (List String)
  files : List (List String)
deriving DecidableEq, Repr

/-- VIRTUAL_CONTENT_ROOT = 'src/content/notion', as path segments. -/
def VIRTUAL_CONTENT_ROOT : List String := ["src", "content", "notion"]

/-- Model of node's path.relative on segment paths: drop the common prefix,
then one '..' per remaining base segment followed by the remaining target
segments. -/
def pathRelative : List String → List String → List String
  | [], t => t
  | b :: bs, [] => List.replicate (b :: bs).length ".."
  | b :: bs, t :: ts =>
    if b = t then pathRelative bs ts
    else List.replicate (b :: bs).length ".." ++ (t :: ts)

/-- Model of node's path.resolve of a relative segment path against an
absolute base: '..' pops a segment, '.' is skipped, anything else is
appended. -/
def pathResolveSegs (base : List String) (rel : List String) : List String :=
  rel.foldl (fun acc seg => if seg = ".." then acc.dropLast else if seg = "." then acc else acc ++ [seg]) base

/-- fse.ensureDirSync: creates the directory if absent. -/
def ensureDir (fs : FS) (d : List String) : FS :=
  if d ∈ fs.dirs then fs else { fs with dirs := fs.dirs ++ [d] }

/-- fse.writeFile: after the write the file exists (contents are not
modelled). -/
def writeFileFS (fs : FS) (f : List String) : FS :=
  if f ∈ fs.files then fs else { fs with files := fs.files ++ [f] }

def takeUntilChar (c : Char) (l : List Char) : List Char :=
  l.takeWhile (· ≠ c)

/-- Boundary model of new URL(url).pathname for scheme://host URLs: none when
the URL has no scheme separator or an empty scheme (the URL constructor
throws), otherwise the part after the host up to the query string or fragment,
as an absolute path.  The query string is thereby discarded. -/
def urlPathname (url : String) : Option String :=
  match breakOnPattern "://".data url.data with
  | none => none
  | some (scheme, rest) =>
    if scheme = [] then none
    else
      let noFrag := takeUntilChar '#' rest
      let noQuery := takeUntilChar '?' noFrag
      match breakOnChar '/' noQuery with
      | none => some "/"
      | some hp => some (String.mk ('/' :: hp.2))

/-- Analytics tag reported through options.tag. -/
inductive AssetTag where
  | download
  | cached
deriving DecidableEq, Repr

/-- Outcome of a successful downloadFile call: the filesystem afterwards, the
absolute save path, the returned path (relative to the virtual content root),
the analytics tag, and whether a network fetch occurred. -/
structure DownloadResult where
  fs : FS
  filePath : List String
  relPath : List String
  tag : AssetTag
  fetched : Bool
deriving DecidableEq, Repr

/-- downloadFile (src/src/asset.ts): fails when the destination root does not
exist; decomposes new URL(url).pathname into its non-empty segments and
destructures the first three as parentId, objId and fileName, failing when
fewer than three exist; ensures the per-object directory assetPath/objId;
derives the file path assetPath/objId/fileName; fetches and writes unless the
file already exists and ignoreCache is unset; returns the path relative to
cwd/VIRTUAL_CONTENT_ROOT. -/
def downloadFile (cwd : List String) (url : String) (assetPath : List String)
    (ignoreCache : Bool) (fs : FS) : Except String DownloadResult :=
  if assetPath ∈ fs.dirs then
    match urlPathname url with
    | none => Except.error "TypeError: Invalid URL"
    | some pathname =>
      match (jsSplit '/' pathname).filter (· ≠ "") with
      | _parentId :: objId :: fileName :: _ =>
        let saveDirPath := assetPath ++ [objId]
        let fs1 := ensureDir fs saveDirPath
        let filePath := saveDirPath ++ [fileName]
        let relBasePath := cwd ++ VIRTUAL_CONTENT_ROOT
        if ignoreCache = true ∨ filePath ∉ fs1.files then
          Except.ok ⟨writeFileFS fs1 filePath, filePath,
            pathRelative relBasePath filePath, AssetTag.download, true⟩
        else
          Except.ok ⟨fs1, filePath, pathRelative relBasePath filePath, AssetTag.cached, false⟩
      | _ => Except.error "Invalid URL"
  else Except.error "Directory does not exist"

/-- resolveAssetPath (src/src/asset.ts): resolves a path relative to the
virtual content root against cwd and re-expresses it relative to cwd. -/
def resolveAssetPath (cwd : List String) (rawPath : List String) : List String :=
  pathRelative cwd (pathResolveSegs (cwd ++ VIRTUAL_CONTENT_ROOT) rawPath)

/-- Path segments joined back into the string form the renderer stores. -/
def joinPath : List String → String
  | [] => ""
  | [s] => s
  | s :: rest => s ++ "/" ++ joinPath rest

/-- A Notion file object as fetchAsset sees it: its discriminant type
('file' for Notion-hosted, 'external' or 'custom_emoji' otherwise) and its
URL. -/
structure FileObject where
  type : String
  url : String
deriving DecidableEq, Repr

/-- Outcome of NotionPageRenderer.#fetchAsset: the (possibly rewritten)
object, the filesystem afterwards, the accumulated #assetPaths, and the
download/cached analytics counters. -/
structure FetchAssetResult where
  object : Option FileObject
  fs : FS
  assetPaths : List String
  analyticsDownload : Nat
  analyticsCached : Nat
deriving DecidableEq, Repr

/-- NotionPageRenderer.#fetchAsset (src/src/render.ts): returns the object
unchanged when it is null or not a Notion-hosted 'file'; otherwise ensures the
asset root directory, calls downloadFile with the cache enabled, and on
success records the returned path and rewrites the object's URL (resolved
against the virtual content root when resolvePath is set).  Any error is
caught and the original object is returned unchanged. -/
def fetchAsset (cwd : List String) (assetPath : List String) (resolvePath : Bool)
    (fileObject : Option FileObject) (fs : FS) (assetPaths : List String)
    (dl cachedCount : Nat) : FetchAssetResult :=
  match fileObject with
  | none => ⟨none, fs, assetPaths, dl, cachedCount⟩
  | some obj =>
    if obj.type ≠ "file" then ⟨some obj, fs, assetPaths, dl, cachedCount⟩
    else
      let fs0 := ensureDir fs assetPath
      match downloadFile cwd obj.url assetPath false fs0 with
      | .error _ => ⟨some obj, fs0, assetPaths, dl, cachedCount⟩
      | .ok r =>
        let filePath := joinPath r.relPath
        ⟨some { obj with url := if resolvePath then joinPath (resolveAssetPath cwd r.relPath) else filePath },
         r.fs, assetPaths ++ [filePath],
         if r.tag = AssetTag.download then dl + 1 else dl,
         if r.tag = AssetTag.cached then cachedCount + 1 else cachedCount⟩

/-- The save path as claim C4 words it: destinationRoot/objId/fileName where
fileName is the last non-empty path segment of the URL and objId the
second-to-last. -/
def claimSavePath (url : String) (assetPath : List String) : Option (List String) :=
  match urlPathname url with
  | none => none
  | some pathname =>
    match ((jsSplit '/' pathname).filter (· ≠ "")).reverse with
    | fileName :: objId :: _ => some (assetPath ++ [objId, fileName])
    | _ => none

/-! ## Table-of-contents extraction: extractTocHeadings (src/src/render.ts)

The rehype-toc plugin hands customizeTOC the navigation element it built: a
nav whose first child is an ordered list of list items, each list item holding
a link (text and an anchor href) and optionally a nested sub-list.
extractTocHeadings rejects a non-nav root and flattens the list into
MarkdownHeading entries. -/

structure MarkdownHeading where
  depth : Nat
  text : String
  slug : String
deriving DecidableEq, Repr

/-- One li of the navigation list: its link's display text and anchor href,
and the optional nested sub-list. -/
inductive LiNode where
  | mk (text : String) (href : String) (sub : Option (List LiNode)) : LiNode
deriving Repr

/-- listElementToTree: flatMap over the list items; each contributes a heading
at the current depth whose slug is its href without the first character
(slice(1)), followed by its sub-list flattened at depth + 1. -/
def listElementToTree : List LiNode → Nat → List MarkdownHeading
  | [], _ => []
  | .mk t h sub :: rest, depth =>
    (⟨depth, t, jsDrop 1 h⟩ ::
      (match sub with
       | some subItems => listElementToTree subItems (depth + 1)
       | none => [])) ++ listElementToTree rest depth

/-- The navigation element customizeTOC receives: its tag name and the items
of its first child list. -/
structure NavNode where
  tagName : String
  firstChild : List LiNode
deriving Repr

/-- extractTocHeadings: throws unless the root element is a nav, then flattens
the nav's first child list starting at depth 0. -/
def extractTocHeadings (toc : NavNode) : Except String (List MarkdownHeading) :=
  if toc.tagName ≠ "nav" then Except.error ("Expected nav, got " ++ toc.tagName)
  else Except.ok (listElementToTree toc.firstChild 0)

mutual

/-- The outline as claim C8 words it, written from the spec: every list item
yields an entry carrying its nesting level as depth (0 for top-level items),
its display text, and its href without the leading anchor mark as slug; the
items of its nested sub-list follow it with the level one greater, in document
order. -/
def specOutline : List LiNode → Nat → List MarkdownHeading
  | [], _ => []
  | li :: rest, level => specOutlineItem li level ++ specOutline rest level

/-- One item of the spec-side outline of claim C8: the entry for the item
itself followed by the flattened sub-list one level deeper. -/
def specOutlineItem : LiNode → Nat → List MarkdownHeading
  | .mk t h none, level => [⟨level, t, jsDrop 1 h⟩]
  | .mk t h (some subItems), level => ⟨level, t, jsDrop 1 h⟩ :: specOutline subItems (level + 1)

end

/-! ## Asset-path rewrite stage: rehypeAssets (src/src/rehype/rehype-assets.ts)

The stage visits every node of the markup tree; on elements with a src
attribute it percent-decodes the path, replaces a locally cached raster image
with the single __ASTRO_IMAGE_ attribute (carrying the former attributes and
an occurrence index), and otherwise rewrites dot-dot-relative and src-rooted
paths to site-absolute ones; href attributes get the same src-rooted rewrite only. -/

/-- A node of the markup tree: a text node or an element carrying a tag name,
an attribute list, and children. -/
inductive HNode where
  | text (value : String) : HNode
  | element (tagName : String) (properties : List (String × String)) (children : List HNode) : HNode
deriving Repr

abbrev Props := List (String × String)

/-- Lookup in a JavaScript object or Map modelled as an association list. -/
def assocGet {α : Type} (m : List (String × α)) (key : String) : Option α :=
  (m.find? (·.1 = key)).map (·.2)

/-- Assignment in a JavaScript object or Map modelled as an association list:
replaces in place or appends. -/
def assocSet {α : Type} (m : List (String × α)) (key : String) (val : α) :
    List (String × α) :=
  if m.any (·.1 = key) then m.map (fun kv => if kv.1 = key then (key, val) else kv)
  else m ++ [(key, val)]

/-- Attribute lookup on the properties object. -/
def propsGet (props : Props) (key : String) : Option String :=
  assocGet props key

/-- Attribute assignment on the properties object. -/
def propsSet (props : Props) (key val : String) : Props :=
  assocSet props key val

def ASTRO_IMAGE_FORMATS : List String := ["avif", "webp", "png", "jpg", "jpeg", "gif"]

/-- isAstroImageFormat: the part after the last dot, lower-cased, must be a
recognized raster-image extension (src.split('.').pop(), falsy when
empty). -/
def isAstroImageFormat (src : String) : Bool :=
  match (jsSplit '.' src).getLast? with
  | some ext => if ext = "" then false else ASTRO_IMAGE_FORMATS.contains (jsToLower ext)
  | none => false

def hexDigit? (c : Char) : Option Nat :=
  if '0' ≤ c ∧ c ≤ '9' then some (c.toNat - '0'.toNat)
  else if 'a' ≤ c ∧ c ≤ 'f' then some (c.toNat - 'a'.toNat + 10)
  else if 'A' ≤ c ∧ c ≤ 'F' then some (c.toNat - 'A'.toNat + 10)
  else none

/-- The characters whose percent escapes the decodeURI builtin leaves
encoded. -/
def jsDecodeURIReserved : List Char := [';', '/', '?', ':', '@', '&', '=', '+', '$', ',', '#']

/-- A UTF-8 continuation escape's payload for the decodeURI model: both
characters must be hex digits and the byte must lie in 0x80..0xBF; yields
the byte's low six bits. -/
def contHex? (a b : Char) : Option Nat :=
  match hexDigit? a, hexDigit? b with
  | some x, some y =>
    let v := 16 * x + y
    if 128 ≤ v ∧ v < 192 then some (v % 64) else none
  | _, _ => none

/-- Boundary model of the decodeURI builtin (the ECMAScript Decode
algorithm), with URIError as none: a percent sign not followed by two hex
digits, an invalid or overlong UTF-8 byte sequence, a surrogate or an
out-of-range code point throw; an escape of a reserved character is kept
encoded exactly as written; every other escape is decoded (multi-byte
sequences through their continuation escapes). -/
def jsDecodeURIAux : List Char → Option (List Char)
  | [] => some []
  | '%' :: a :: b :: rest =>
    (match hexDigit? a, hexDigit? b with
     | some x, some y =>
       let b1 := 16 * x + y
       if b1 < 128 then
         if Char.ofNat b1 ∈ jsDecodeURIReserved then
           (jsDecodeURIAux rest).map (fun t => '%' :: a :: b :: t)
         else (jsDecodeURIAux rest).map (fun t => Char.ofNat b1 :: t)
       else if b1 < 194 then none
       else if b1 < 224 then
         match rest with
         | '%' :: a2 :: b2 :: rest2 =>
           (match contHex? a2 b2 with
            | some v2 => (jsDecodeURIAux rest2).map
                (fun t => Char.ofNat ((b1 % 32) * 64 + v2) :: t)
            | none => none)
         | _ => none
       else if b1 < 240 then
         match rest with
         | '%' :: a2 :: b2 :: '%' :: a3 :: b3 :: rest2 =>
           (match contHex? a2 b2, contHex? a3 b3 with
            | some v2, some v3 =>
              let cp := (b1 % 16) * 4096 + v2 * 64 + v3
              if cp < 2048 ∨ (55296 ≤ cp ∧ cp < 57344) then none
              else (jsDecodeURIAux rest2).map (fun t => Char.ofNat cp :: t)
            | _, _ => none)
         | _ => none
       else if b1 < 245 then
         match rest with
         | '%' :: a2 :: b2 :: '%' :: a3 :: b3 :: '%' :: a4 :: b4 :: rest2 =>
           (match contHex? a2 b2, contHex? a3 b3, contHex? a4 b4 with
            | some v2, some v3, some v4 =>
              let cp := (b1 % 8) * 262144 + v2 * 4096 + v3 * 64 + v4
              if cp < 65536 ∨ 1114111 < cp then none
              else (jsDecodeURIAux rest2).map (fun t => Char.ofNat cp :: t)
            | _, _, _ => none)
         | _ => none
       else none
     | _, _ => none)
  | '%' :: _ => none
  | c :: rest => (jsDecodeURIAux rest).map (fun t => c :: t)

/-- decodeURI on a string: none models the thrown URIError, which fails the
document's render. -/
def jsDecodeURI? (s : String) : Option String :=
  (jsDecodeURIAux s.data).map String.mk

/-- Escape for the JSON.stringify boundary model. -/
def jsonEscape (s : String) : String :=
  String.mk (s.data.flatMap (fun c =>
    if c = '\\' then ['\\', '\\'] else if c = '"' then ['\\', '"'] else [c]))

/-- Comma-separated join for the JSON boundary model. -/
def joinComma : List String → String
  | [] => ""
  | [s] => s
  | s :: rest => s ++ "," ++ joinComma rest

/-- Boundary model of JSON.stringify(\x7b...props, index\x7d): the properties
in insertion order followed by the occurrence index. -/
def astroImagePayload (props : Props) (index : Nat) : String :=
  "\x7b" ++
    joinComma ((props.map (fun kv => "\"" ++ jsonEscape kv.1 ++ "\":\"" ++ jsonEscape kv.2 ++ "\"")) ++
      ["\"index\":" ++ toString index]) ++ "\x7d"

/-- The JS regex wildcard dot (no s flag): any character except a line
terminator. -/
def jsDotMatches (c : Char) : Bool :=
  !(c = '\n' || c = '\r' || c = '\u2028' || c = '\u2029')

/-- The anchored greedy source-relative rewrite of the replace call: its
group is two unescaped regex dots (wildcards, not literal dots) followed by
a slash, repeated one or more times, so the match consumes the maximal run
of leading three-character blocks whose third character is a slash and whose
first two are any non-line-terminator characters; this returns the remainder
after those blocks (the single replacement slash is prefixed by the
caller). -/
def stripDotDotGroups : List Char → List Char
  | c1 :: c2 :: '/' :: rest =>
    if jsDotMatches c1 && jsDotMatches c2 then stripDotDotGroups rest
    else c1 :: c2 :: '/' :: rest
  | l => l

/-- Occurrence-map lookup (assetOccurrenceMap.get(src) || 0). -/
def occGet (m : List (String × Nat)) (k : String) : Nat :=
  (assocGet m k).getD 0

/-- Occurrence-map update (assetOccurrenceMap.set(src, index + 1)). -/
def occSet (m : List (String × Nat)) (k : String) (v : Nat) : List (String × Nat) :=
  assocSet m k v

/-- The href handling that closes the visitor body: a src-rooted link target
is rewritten to a site-absolute path; everything else, and the occurrence
map, is untouched.  Runs on every element that did not take the early
__ASTRO_IMAGE_ return. -/
def visitHref (pr : Props × List (String × Nat)) : Props × List (String × Nat) :=
  match propsGet pr.1 "href" with
  | some h =>
    if jsStartsWith h "src/" then (propsSet pr.1 "href" ("/" ++ jsDrop 4 h), pr.2)
    else pr
  | none => pr

/-- The visitor body of rehypeAssets for one element node: percent-decode a
non-empty src (a URIError thrown by decodeURI escalates as none and fails
the document's render); on an img whose decoded src is a cached asset path
with a recognized raster extension, set the __ASTRO_IMAGE_ attribute from
the snapshot of the attributes and then delete every key of that snapshot,
bump the occurrence count, and return early; otherwise rewrite a
dot-dot-relative or src-rooted src to a site-absolute path, and rewrite a
src-rooted href the same way. -/
def visitElement (assetPaths : List String) (tagName : String) (props : Props)
    (occ : List (String × Nat)) : Option (Props × List (String × Nat)) :=
  match propsGet props "src" with
  | some s =>
    if s = "" then some (visitHref (props, occ))
    else
      match jsDecodeURI? s with
      | none => none
      | some s2 =>
        let props1 := propsSet props "src" s2
        if tagName = "img" && assetPaths.contains s2 && isAstroImageFormat s2 then
          let index := occGet occ s2
          let withHint := propsSet props1 "__ASTRO_IMAGE_" (astroImagePayload props1 index)
          some (withHint.filter (fun kv => !(props1.any (·.1 = kv.1))),
            occSet occ s2 (index + 1))
        else
          let props2 := if jsStartsWith s2 "../" then
              propsSet props1 "src" (String.mk ('/' :: stripDotDotGroups s2.data))
            else props1
          let props3 := if jsStartsWith s2 "src/" then
              propsSet props2 "src" ("/" ++ jsDrop 4 s2)
            else props2
          some (visitHref (props3, occ))
  | none => some (visitHref (props, occ))

mutual

/-- The unist-util-visit traversal of rehypeAssets: pre-order over the tree,
threading the occurrence map; text nodes pass through; a URIError thrown on
any element aborts the traversal (none). -/
def rehypeVisitNode (assetPaths : List String) (occ : List (String × Nat)) :
    HNode → Option (HNode × List (String × Nat))
  | .text v => some (.text v, occ)
  | .element tag props children =>
    match visitElement assetPaths tag props occ with
    | none => none
    | some pr =>
      match rehypeVisitList assetPaths pr.2 children with
      | none => none
      | some cr => some (.element tag pr.1 cr.1, cr.2)

/-- Traversal of a child list in document order. -/
def rehypeVisitList (assetPaths : List String) (occ : List (String × Nat)) :
    List HNode → Option (List HNode × List (String × Nat))
  | [] => some ([], occ)
  | n :: rest =>
    match rehypeVisitNode assetPaths occ n with
    | none => none
    | some nr =>
      match rehypeVisitList assetPaths nr.2 rest with
      | none => none
      | some rr => some (nr.1 :: rr.1, rr.2)

end

/-- The rehypeAssets stage applied to a tree with the render's cached asset
paths: a fresh occurrence map per file; none models the stage throwing,
which fails the document's render. -/
def rehypeAssets (assetPaths : List String) (tree : HNode) : Option HNode :=
  (rehypeVisitNode assetPaths [] tree).map (·.1)

/-- Modelled from the spec: the rehype-toc plugin collaborator at its
boundary (the plugin itself is an external dependency, not part of src/).
The plugin builds the navigation element and passes it to customizeTOC; when
customizeTOC returns false (none here) the navigation element is not inserted
and the tree is unchanged; otherwise the returned navigation element is
prepended to the root's children. -/
def tocPluginApply (customizeResult : Option NavNode) (tree : HNode) : HNode :=
  match customizeResult with
  | none => tree
  | some nav2 =>
    match tree with
    | .element t p cs => .element t p (.element nav2.tagName [] [] :: cs)
    | other => other

/-- The customizeTOC callback installed by buildProcessor: captures the
extracted headings as a side channel and returns false, suppressing the
navigation element; an extraction error escalates through the plugin. -/
def customizeTOC (nav : NavNode) : Except String (Option NavNode × List MarkdownHeading) :=
  (extractTocHeadings nav).map (fun hs => ((none : Option NavNode), hs))

/-- The table-of-contents stage of the processor: runs the plugin boundary
with the loader's customizeTOC, yielding the transformed tree and the
captured headings. -/
def applyTocStage (nav : NavNode) (tree : HNode) : Except String (HNode × List MarkdownHeading) :=
  match customizeTOC nav with
  | .error e => .error e
  | .ok pr => .ok (tocPluginApply pr.1 tree, pr.2)


/-- Decidable equality for Except values, used to evaluate download outcomes
on concrete inputs. -/
instance exceptDecEq {e a : Type} [DecidableEq e] [DecidableEq a] :
    DecidableEq (Except e a) := fun x y =>
  match x, y with
  | .error u, .error v =>
    if h : u = v then .isTrue (h ▸ rfl) else .isFalse (fun hh => by cases hh; exact h rfl)
  | .ok u, .ok v =>
    if h : u = v then .isTrue (h ▸ rfl) else .isFalse (fun hh => by cases hh; exact h rfl)
  | .error _, .ok _ => .isFalse (fun hh => by cases hh)
  | .ok _, .error _ => .isFalse (fun hh => by cases hh)

/-! ### Store lemmas -/

theorem storeGet_nil (i : String) : storeGet [] i = none := rfl

theorem storeGet_cons (x : StoreEntry) (xs : Store) (i : String) :
    storeGet (x :: xs) i = if x.id = i then some x else storeGet xs i := by
  simp only [storeGet, List.find?]
  by_cases h : x.id = i <;> simp [h]

theorem storeGet_delete (s : Store) (j i : String) :
    storeGet (storeDelete s j) i = if i = j then none else storeGet s i := by
  induction s with
  | nil => simp [storeDelete, storeGet]
  | cons x xs ih =>
    by_cases hxj : x.id = j
    · have hd : storeDelete (x :: xs) j = storeDelete xs j := by
        simp [storeDelete, hxj]
      rw [hd, ih, storeGet_cons]
      by_cases hij : i = j
      · simp [hij]
      · have hxi : ¬ x.id = i := by rw [hxj]; exact fun h => hij h.symm
        simp [hij, hxi]
    · have hd : storeDelete (x :: xs) j = x :: storeDelete xs j := by
        simp [storeDelete, hxj]
      rw [hd, storeGet_cons, storeGet_cons, ih]
      by_cases hxi : x.id = i
      · have hij : ¬ i = j := by rw [← hxi]; exact hxj
        simp [hxi, hij]
      · simp [hxi]

theorem keys_mem_iff_get (s : Store) (i : String) :
    i ∈ storeKeys s ↔ (storeGet s i).isSome := by
  induction s with
  | nil => simp [storeKeys, storeGet]
  | cons x xs ih =>
    rw [storeGet_cons]
    by_cases hxi : x.id = i
    · simp [storeKeys, hxi]
    · have hix : ¬ i = x.id := fun h => hxi h.symm
      have ih2 := ih
      simp only [storeKeys, List.mem_map] at ih2
      simp [storeKeys, hxi, hix, ih2]

theorem storeGet_map_ne (xs : Store) (e : StoreEntry) (i : String) (hie : ¬ i = e.id) :
    storeGet (xs.map (fun x => if x.id = e.id then e else x)) i = storeGet xs i := by
  induction xs with
  | nil => rfl
  | cons x xs ih =>
    simp only [List.map_cons]
    rw [storeGet_cons, storeGet_cons]
    by_cases hxe : x.id = e.id
    · rw [if_pos hxe]
      have h1 : ¬ e.id = i := fun h => hie h.symm
      have h2 : ¬ x.id = i := by rw [hxe]; exact h1
      rw [if_neg h1, if_neg h2, ih]
    · rw [if_neg hxe, ih]

theorem storeGet_map_found (s : Store) (e : StoreEntry) :
    (∃ w ∈ s, w.id = e.id) →
    storeGet (s.map (fun x => if x.id = e.id then e else x)) e.id = some e := by
  induction s with
  | nil => rintro ⟨w, hw, _⟩; simp at hw
  | cons x xs ih =>
    rintro ⟨w, hw, hwe⟩
    simp only [List.map_cons]
    rw [storeGet_cons]
    by_cases hxe : x.id = e.id
    · simp [hxe]
    · rw [if_neg hxe, if_neg hxe]
      apply ih
      cases hw with
      | head => exact absurd hwe hxe
      | tail _ hw2 => exact ⟨w, hw2, hwe⟩

theorem storeGet_append_single (s : Store) (e : StoreEntry) (i : String)
    (h : ∀ x ∈ s, ¬ x.id = e.id) :
    storeGet (s ++ [e]) i = if i = e.id then some e else storeGet s i := by
  induction s with
  | nil =>
    rw [List.nil_append, storeGet_cons, storeGet_nil]
    by_cases hie : i = e.id
    · simp [hie]
    · rw [if_neg (fun hh => hie (hh.symm : i = e.id)), if_neg hie]
  | cons x xs ih =>
    have ih2 := ih (fun y hy => h y (List.mem_cons_of_mem x hy))
    by_cases hxi : x.id = i
    · by_cases hie : i = e.id
      · exact absurd (by rw [hxi, hie] : x.id = e.id) (h x (List.mem_cons_self x xs))
      · simp [List.cons_append, storeGet_cons, hxi, hie]
    · simp [List.cons_append, storeGet_cons, hxi, ih2]

theorem storeGet_set (s : Store) (e : StoreEntry) (i : String) :
    storeGet (storeSet s e) i = if i = e.id then some e else storeGet s i := by
  unfold storeSet
  by_cases hany : s.any (·.id = e.id) = true
  · rw [if_pos hany]
    rcases List.any_eq_true.mp hany with ⟨w, hw, hwp⟩
    have hwe : w.id = e.id := by simpa using hwp
    by_cases hie : i = e.id
    · subst hie
      rw [if_pos rfl]
      exact storeGet_map_found s e ⟨w, hw, hwe⟩
    · rw [if_neg hie]
      exact storeGet_map_ne s e i hie
  · rw [if_neg hany]
    apply storeGet_append_single
    intro x hx hxe
    exact hany (List.any_eq_true.mpr ⟨x, hx, by simpa using hxe⟩)

/-! ### Page-loop and fold lemmas -/

theorem filter_and_sublist {α : Type} (l : List α) (p q : α → Bool) :
    List.Sublist (l.filter (fun a => p a && q a)) (l.filter p) := by
  induction l with
  | nil => simp
  | cons x xs ih =>
    by_cases hp : p x
    · by_cases hq : q x <;> simp [List.filter_cons, hp, hq] <;>
        first
        | exact ih
        | exact ih.cons x
    · simpa [List.filter_cons, hp] using ih

theorem pageLoop_snd (force : Bool) (store0 : Store) (pages : List RemotePage)
    (c : List String) (sch : List RemotePage) :
    (pages.foldl (pageStep force store0) (c, sch)).2 =
      sch ++ pages.filter (fun p => p.isFull && shouldRender force store0 p) := by
  induction pages generalizing c sch with
  | nil => simp
  | cons p ps ih =>
    simp only [List.foldl_cons, List.filter_cons]
    by_cases hf : p.isFull
    · by_cases hr : shouldRender force store0 p
      · simp [pageStep, hf, hr, ih]
      · simp [pageStep, hf, hr, ih]
    · simp [pageStep, hf, ih]

theorem pageLoop_fst (force : Bool) (store0 : Store) (pages : List RemotePage)
    (c : List String) (sch : List RemotePage) :
    (pages.foldl (pageStep force store0) (c, sch)).1 = eraseSeen pages c := by
  induction pages generalizing c sch with
  | nil => simp [eraseSeen]
  | cons p ps ih =>
    simp only [List.foldl_cons, eraseSeen]
    by_cases hf : p.isFull
    · by_cases hr : shouldRender force store0 p <;> simp [pageStep, hf, hr, ih, eraseSeen]
    · simp [pageStep, hf, ih, eraseSeen]

theorem eraseSeen_nodup (pages : List RemotePage) (c : List String) (h : c.Nodup) :
    (eraseSeen pages c).Nodup := by
  induction pages generalizing c with
  | nil => exact h
  | cons p ps ih =>
    have hstep : eraseSeen (p :: ps) c =
        eraseSeen ps (if p.isFull then c.erase p.id else c) := by
      simp [eraseSeen]
    rw [hstep]
    by_cases hf : p.isFull
    · rw [if_pos hf]; exact ih _ (h.erase p.id)
    · rw [if_neg hf]; exact ih _ h

theorem mem_eraseSeen (pages : List RemotePage) (c : List String) (h : c.Nodup) (i : String) :
    i ∈ eraseSeen pages c ↔ i ∈ c ∧ ∀ p ∈ pages, p.isFull → p.id ≠ i := by
  induction pages generalizing c with
  | nil => simp [eraseSeen]
  | cons p ps ih =>
    have hstep : eraseSeen (p :: ps) c =
        eraseSeen ps (if p.isFull then c.erase p.id else c) := by
      simp [eraseSeen]
    rw [hstep]
    by_cases hf : p.isFull
    · rw [if_pos hf, ih (c.erase p.id) (h.erase p.id), h.mem_erase_iff]
      constructor
      · rintro ⟨⟨hne, hc⟩, hall⟩
        refine ⟨hc, ?_⟩
        intro q hq hqf
        cases hq with
        | head => exact fun he => hne he.symm
        | tail _ hq2 => exact hall q hq2 hqf
      · rintro ⟨hc, hall⟩
        refine ⟨⟨?_, hc⟩, ?_⟩
        · exact fun he => hall p (List.mem_cons_self p ps) hf he.symm
        · intro q hq hqf
          exact hall q (List.mem_cons_of_mem p hq) hqf
    · rw [if_neg hf, ih c h]
      constructor
      · rintro ⟨hc, hall⟩
        refine ⟨hc, ?_⟩
        intro q hq hqf
        cases hq with
        | head => exact absurd hqf hf
        | tail _ hq2 => exact hall q hq2 hqf
      · rintro ⟨hc, hall⟩
        exact ⟨hc, fun q hq hqf => hall q (List.mem_cons_of_mem p hq) hqf⟩

theorem storeGet_deleteFold (l : List String) (s : Store) (i : String) :
    storeGet (l.foldl storeDelete s) i = if i ∈ l then none else storeGet s i := by
  induction l generalizing s with
  | nil => simp
  | cons j js ih =>
    simp only [List.foldl_cons]
    rw [ih (storeDelete s j), storeGet_delete]
    by_cases hij : i = j
    · simp [hij]
    · by_cases hmem : i ∈ js <;> simp [hij, hmem]

theorem settleFold_fst_get_ne (r : RemotePage → Option RenderPayload)
    (sch : List RemotePage) (s : Store) (ops : List StoreOp) (i : String)
    (h : ∀ p ∈ sch, p.id ≠ i) :
    storeGet (sch.foldl (renderSettleStep r) (s, ops)).1 i = storeGet s i := by
  induction sch generalizing s ops with
  | nil => simp
  | cons q qs ih =>
    simp only [List.foldl_cons]
    have hq : q.id ≠ i := h q (List.mem_cons_self q qs)
    have htail : ∀ p ∈ qs, p.id ≠ i := fun p hp => h p (List.mem_cons_of_mem q hp)
    cases hr : r q with
    | none => simp only [renderSettleStep, hr]; exact ih s ops htail
    | some pay =>
      simp only [renderSettleStep, hr]
      have hiq : ¬ i = q.id := fun he => hq he.symm
      rw [ih _ _ htail]
      simp [storeGet_set, hiq]

theorem settleFold_fst_get_mem (r : RemotePage → Option RenderPayload)
    (sch : List RemotePage) (s : Store) (ops : List StoreOp) (p : RemotePage)
    (hN : (sch.map (·.id)).Nodup) (hp : p ∈ sch) :
    storeGet (sch.foldl (renderSettleStep r) (s, ops)).1 p.id =
      match r p with
      | some pay => some ⟨p.id, p.last_edited_time, pay⟩
      | none => storeGet s p.id := by
  induction sch generalizing s ops with
  | nil => simp at hp
  | cons q qs ih =>
    simp only [List.map_cons, List.nodup_cons] at hN
    cases hp with
    | head =>
      have hrest : ∀ x ∈ qs, x.id ≠ p.id := by
        intro x hx he
        exact hN.1 (he ▸ List.mem_map_of_mem (·.id) hx)
      simp only [List.foldl_cons]
      cases hr : r p with
      | none =>
        simp only [renderSettleStep, hr]
        rw [settleFold_fst_get_ne r qs s ops p.id hrest]
      | some pay =>
        simp only [renderSettleStep, hr]
        rw [settleFold_fst_get_ne r qs _ _ p.id hrest, storeGet_set]
        simp
    | tail _ hp2 =>
      have hqp : q.id ≠ p.id := by
        intro he
        exact hN.1 (he ▸ List.mem_map_of_mem (·.id) hp2)
      simp only [List.foldl_cons]
      cases hr : r q with
      | none =>
        simp only [renderSettleStep, hr]
        exact ih s ops hN.2 hp2
      | some pay =>
        simp only [renderSettleStep, hr]
        rw [ih _ _ hN.2 hp2]
        cases hrp : r p with
        | some pay2 => rfl
        | none =>
          have hpq : ¬ p.id = q.id := fun he => hqp he.symm
          simp [storeGet_set, hpq]

theorem settleFold_snd_mem (r : RemotePage → Option RenderPayload)
    (sch : List RemotePage) (s : Store) (ops : List StoreOp) :
    ∀ op ∈ (sch.foldl (renderSettleStep r) (s, ops)).2,
      op ∈ ops ∨ ∃ p, p ∈ sch ∧ ∃ pay, r p = some pay ∧
        op = StoreOp.set ⟨p.id, p.last_edited_time, pay⟩ := by
  induction sch generalizing s ops with
  | nil => intro op hop; exact Or.inl hop
  | cons q qs ih =>
    intro op hop
    simp only [List.foldl_cons] at hop
    cases hr : r q with
    | none =>
      simp only [renderSettleStep, hr] at hop
      rcases ih s ops op hop with h | ⟨p, hp, pay, hpay, he⟩
      · exact Or.inl h
      · exact Or.inr ⟨p, List.mem_cons_of_mem q hp, pay, hpay, he⟩
    | some pay =>
      simp only [renderSettleStep, hr] at hop
      rcases ih _ _ op hop with h | ⟨p, hp, pay2, hpay, he⟩
      · rcases List.mem_append.mp h with h2 | h2
        · exact Or.inl h2
        · simp only [List.mem_singleton] at h2
          exact Or.inr ⟨q, List.mem_cons_self q qs, pay, hr, h2⟩
      · exact Or.inr ⟨p, List.mem_cons_of_mem q hp, pay2, hpay, he⟩

theorem keys_set_mem (s : Store) (e : StoreEntry) (i : String) :
    i ∈ storeKeys (storeSet s e) ↔ i ∈ storeKeys s ∨ i = e.id := by
  rw [keys_mem_iff_get, keys_mem_iff_get, storeGet_set]
  by_cases hie : i = e.id <;> simp [hie]

theorem settleFold_keys_mem (r : RemotePage → Option RenderPayload)
    (sch : List RemotePage) (s : Store) (ops : List StoreOp) (i : String) :
    i ∈ storeKeys (sch.foldl (renderSettleStep r) (s, ops)).1 ↔
      i ∈ storeKeys s ∨ ∃ p ∈ sch, (r p).isSome ∧ p.id = i := by
  induction sch generalizing s ops with
  | nil => simp
  | cons q qs ih =>
    simp only [List.foldl_cons]
    cases hr : r q with
    | none =>
      simp only [renderSettleStep, hr]
      rw [ih s ops]
      constructor
      · rintro (h | ⟨p, hp, hs, he⟩)
        · exact Or.inl h
        · exact Or.inr ⟨p, List.mem_cons_of_mem q hp, hs, he⟩
      · rintro (h | ⟨p, hp, hs, he⟩)
        · exact Or.inl h
        · cases hp with
          | head => rw [hr] at hs; simp at hs
          | tail _ hp2 => exact Or.inr ⟨p, hp2, hs, he⟩
    | some pay =>
      simp only [renderSettleStep, hr]
      rw [ih _ _, keys_set_mem]
      constructor
      · rintro (⟨h | he⟩ | ⟨p, hp, hs, he⟩)
        · exact Or.inl h
        · exact Or.inr ⟨q, List.mem_cons_self q qs, by simp [hr], by simpa using he.symm⟩
        · exact Or.inr ⟨p, List.mem_cons_of_mem q hp, hs, he⟩
      · rintro (h | ⟨p, hp, hs, he⟩)
        · exact Or.inl (Or.inl h)
        · cases hp with
          | head => exact Or.inl (Or.inr (by simpa using he.symm))
          | tail _ hp2 => exact Or.inr ⟨p, hp2, hs, he⟩

/-! ### loadPass characterizations -/

theorem loadPass_scheduled_eq (force : Bool) (r : RemotePage → Option RenderPayload)
    (store0 : Store) (pages : List RemotePage) :
    (loadPass force r store0 pages).scheduled =
      pages.filter (fun p => p.isFull && shouldRender force store0 p) := by
  simp [loadPass, pageLoop_snd]

theorem sched_ids_nodup (force : Bool) (store0 : Store) (pages : List RemotePage)
    (hN : ((pages.filter (·.isFull)).map (·.id)).Nodup) :
    ((pages.filter (fun p => p.isFull && shouldRender force store0 p)).map (·.id)).Nodup :=
  hN.sublist ((filter_and_sublist pages (·.isFull) (shouldRender force store0)).map (·.id))

theorem loadPass_store_eq (force : Bool) (r : RemotePage → Option RenderPayload)
    (store0 : Store) (pages : List RemotePage) :
    (loadPass force r store0 pages).store =
      ((pages.filter (fun p => p.isFull && shouldRender force store0 p)).foldl
        (renderSettleStep r)
        ((eraseSeen pages (storeKeys store0).dedup).foldl storeDelete store0,
         (eraseSeen pages (storeKeys store0).dedup).map StoreOp.del)).1 := by
  simp [loadPass, pageLoop_snd, pageLoop_fst]

theorem loadPass_ops_eq (force : Bool) (r : RemotePage → Option RenderPayload)
    (store0 : Store) (pages : List RemotePage) :
    (loadPass force r store0 pages).ops =
      ((pages.filter (fun p => p.isFull && shouldRender force store0 p)).foldl
        (renderSettleStep r)
        ((eraseSeen pages (storeKeys store0).dedup).foldl storeDelete store0,
         (eraseSeen pages (storeKeys store0).dedup).map StoreOp.del)).2 := by
  simp [loadPass, pageLoop_snd, pageLoop_fst]

theorem full_id_ne_of_mem_eraseSeen (pages : List RemotePage) (store0 : Store)
    (j : String) (hj : j ∈ eraseSeen pages (storeKeys store0).dedup) :
    ∀ p ∈ pages, p.isFull = true → p.id ≠ j :=
  ((mem_eraseSeen pages _ (List.nodup_dedup _) j).mp hj).2

theorem full_id_not_mem_eraseSeen (pages : List RemotePage) (store0 : Store)
    (p : RemotePage) (hp : p ∈ pages) (hf : p.isFull = true) :
    p.id ∉ eraseSeen pages (storeKeys store0).dedup := by
  intro hmem
  exact full_id_ne_of_mem_eraseSeen pages store0 p.id hmem p hp hf rfl

theorem unseen_mem_eraseSeen (pages : List RemotePage) (store0 : Store) (i : String)
    (hi : i ∈ storeKeys store0) (h : ∀ p ∈ pages, p.isFull = true → p.id ≠ i) :
    i ∈ eraseSeen pages (storeKeys store0).dedup :=
  (mem_eraseSeen pages _ (List.nodup_dedup _) i).mpr ⟨List.mem_dedup.mpr hi, h⟩

theorem loadPass_ops_mem (force : Bool) (r : RemotePage → Option RenderPayload)
    (store0 : Store) (pages : List RemotePage) :
    ∀ op ∈ (loadPass force r store0 pages).ops,
      (∃ j, j ∈ eraseSeen pages (storeKeys store0).dedup ∧ op = StoreOp.del j) ∨
      (∃ p, p ∈ pages.filter (fun p => p.isFull && shouldRender force store0 p) ∧
        ∃ pay, r p = some pay ∧ op = StoreOp.set ⟨p.id, p.last_edited_time, pay⟩) := by
  intro op hop
  rw [loadPass_ops_eq] at hop
  rcases settleFold_snd_mem r _ _ _ op hop with h | ⟨p, hp, pay, hpay, he⟩
  · rcases List.mem_map.mp h with ⟨j, hj, he⟩
    exact Or.inl ⟨j, hj, he.symm⟩
  · exact Or.inr ⟨p, hp, pay, hpay, he⟩

theorem loadPass_keys_mem (force : Bool) (r : RemotePage → Option RenderPayload)
    (store0 : Store) (pages : List RemotePage) (i : String) :
    i ∈ storeKeys (loadPass force r store0 pages).store ↔
      (i ∈ storeKeys store0 ∧ i ∉ eraseSeen pages (storeKeys store0).dedup) ∨
      ∃ p, p ∈ pages.filter (fun p => p.isFull && shouldRender force store0 p) ∧
        (r p).isSome ∧ p.id = i := by
  rw [loadPass_store_eq, settleFold_keys_mem, keys_mem_iff_get, storeGet_deleteFold]
  by_cases hrem : i ∈ eraseSeen pages (storeKeys store0).dedup
  · rw [if_pos hrem]
    simp only [Option.isSome_none, Bool.false_eq_true, false_or]
    constructor
    · rintro ⟨p, hp, hs, he⟩
      exact Or.inr ⟨p, hp, hs, he⟩
    · rintro (⟨_, habs⟩ | h)
      · exact absurd hrem habs
      · exact h
  · rw [if_neg hrem, ← keys_mem_iff_get]
    constructor
    · rintro (h | hex)
      · exact Or.inl ⟨h, hrem⟩
      · exact Or.inr hex
    · rintro (⟨h, _⟩ | hex)
      · exact Or.inl h
      · exact Or.inr hex

theorem loadPass_get_full (force : Bool) (r : RemotePage → Option RenderPayload)
    (store0 : Store) (pages : List RemotePage) (p : RemotePage)
    (hN : ((pages.filter (·.isFull)).map (·.id)).Nodup)
    (hp : p ∈ pages) (hf : p.isFull = true) :
    storeGet (loadPass force r store0 pages).store p.id =
      if shouldRender force store0 p then
        (match r p with
         | some pay => some ⟨p.id, p.last_edited_time, pay⟩
         | none => storeGet store0 p.id)
      else storeGet store0 p.id := by
  have hrem : p.id ∉ eraseSeen pages (storeKeys store0).dedup :=
    full_id_not_mem_eraseSeen pages store0 p hp hf
  have hdel : storeGet ((eraseSeen pages (storeKeys store0).dedup).foldl storeDelete store0) p.id =
      storeGet store0 p.id := by
    rw [storeGet_deleteFold, if_neg hrem]
  rw [loadPass_store_eq]
  by_cases hsr : shouldRender force store0 p
  · have hmem : p ∈ pages.filter (fun q => q.isFull && shouldRender force store0 q) :=
      List.mem_filter.mpr ⟨hp, by simp [hf, hsr]⟩
    rw [settleFold_fst_get_mem r _ _ _ p (sched_ids_nodup force store0 pages hN) hmem]
    rw [if_pos hsr]
    cases r p with
    | some pay => rfl
    | none => simpa using hdel
  · have hne : ∀ q ∈ pages.filter (fun q => q.isFull && shouldRender force store0 q),
        q.id ≠ p.id := by
      intro q hq he
      have hqp : q = p := by
        have hq1 := List.mem_filter.mp hq
        have hqfull : q ∈ pages.filter (·.isFull) :=
          List.mem_filter.mpr ⟨hq1.1, by
            have := hq1.2
            simp only [Bool.and_eq_true] at this
            exact this.1⟩
        have hpfull : p ∈ pages.filter (·.isFull) := List.mem_filter.mpr ⟨hp, by simp [hf]⟩
        exact List.inj_on_of_nodup_map hN hqfull hpfull he
      rw [hqp] at hq
      have := (List.mem_filter.mp hq).2
      simp only [Bool.and_eq_true] at this
      exact hsr this.2
    rw [settleFold_fst_get_ne r _ _ _ p.id hne, hdel, if_neg hsr]

theorem loadPass_second_pass_clean (renderOf renderOf2 : RemotePage → Option RenderPayload)
    (store0 : Store) (pages : List RemotePage)
    (hN : ((pages.filter (·.isFull)).map (·.id)).Nodup)
    (hR : ∀ p ∈ pages, p.isFull = true → (renderOf p).isSome) :
    (loadPass false renderOf2 (loadPass false renderOf store0 pages).store pages).ops = [] := by
  set S1 := (loadPass false renderOf store0 pages).store with hS1
  have hdig : ∀ p ∈ pages, p.isFull = true →
      (storeGet S1 p.id).map (·.digest) = some p.last_edited_time := by
    intro p hp hf
    rw [hS1, loadPass_get_full false renderOf store0 pages p hN hp hf]
    by_cases hsr : shouldRender false store0 p
    · rcases Option.isSome_iff_exists.mp (hR p hp hf) with ⟨pay, hpay⟩
      rw [if_pos hsr, hpay]
      rfl
    · rw [if_neg hsr]
      cases hbe : ((storeGet store0 p.id).map (·.digest) == some p.last_edited_time) with
      | false => exact absurd (by simp [shouldRender, hbe]) hsr
      | true => exact eq_of_beq hbe
  have hsched2 : pages.filter (fun p => p.isFull && shouldRender false S1 p) = [] := by
    apply List.filter_eq_nil_iff.mpr
    intro p hp
    simp only [Bool.and_eq_true, not_and]
    intro hf
    simp [shouldRender, hdig p hp hf]
  have hkeys : ∀ i ∈ storeKeys S1, ∃ p ∈ pages, p.isFull = true ∧ p.id = i := by
    intro i hi
    rw [hS1, loadPass_keys_mem] at hi
    rcases hi with ⟨hi0, hnrem⟩ | ⟨p, hpf, _, he⟩
    · by_contra hnone
      push_neg at hnone
      exact hnrem (unseen_mem_eraseSeen pages store0 i hi0
        (fun p hp hf he => hnone p hp hf he))
    · have h1 := List.mem_filter.mp hpf
      have h2 : p.isFull = true := by
        have := h1.2
        simp only [Bool.and_eq_true] at this
        exact this.1
      exact ⟨p, h1.1, h2, he⟩
  have hrem2 : eraseSeen pages (storeKeys S1).dedup = [] := by
    rw [List.eq_nil_iff_forall_not_mem]
    intro i hi
    have h1 := (mem_eraseSeen pages _ (List.nodup_dedup _) i).mp hi
    rcases hkeys i (List.mem_dedup.mp h1.1) with ⟨p, hp, hf, he⟩
    exact h1.2 p hp hf he
  rw [loadPass_ops_eq, hsched2, hrem2]
  simp

/-- C1: for every full document enumerated in a sync pass, if the stored
digest equals the document's last_edited_time and the forced-rerender
override is unset, the document is skipped: it is not scheduled for render,
no store write touches its id, and its entry is unchanged; an absent local
entry is treated as changed (a render is scheduled); consequently a second
pass over the same remote enumeration (all first-pass renders having
succeeded, remote ids distinct) performs zero store writes. -/
theorem loader_skip_and_idempotence
    (force : Bool) (renderOf : RemotePage → Option RenderPayload) (store0 : Store)
    (pages : List RemotePage) :
    (∀ p ∈ pages, p.isFull = true → force = false →
      ((pages.filter (·.isFull)).map (·.id)).Nodup →
      ∀ e, storeGet store0 p.id = some e → e.digest = p.last_edited_time →
        p ∉ (loadPass force renderOf store0 pages).scheduled ∧
        (∀ op ∈ (loadPass force renderOf store0 pages).ops, opTouches op p.id = false) ∧
        storeGet (loadPass force renderOf store0 pages).store p.id = some e) ∧
    (∀ p ∈ pages, p.isFull = true → storeGet store0 p.id = none →
      p ∈ (loadPass force renderOf store0 pages).scheduled) ∧
    (force = false → ((pages.filter (·.isFull)).map (·.id)).Nodup →
      (∀ p ∈ pages, p.isFull = true → (renderOf p).isSome) →
      ∀ renderOf2,
        (loadPass false renderOf2 (loadPass false renderOf store0 pages).store pages).ops
          = []) := by
  refine ⟨?_, ?_, ?_⟩
  · intro p hp hf hforce hN e hget hdig
    have hsr : shouldRender force store0 p = false := by
      simp [shouldRender, hget, hdig, hforce]
    refine ⟨?_, ?_, ?_⟩
    · rw [loadPass_scheduled_eq]
      intro hmem
      have := (List.mem_filter.mp hmem).2
      simp [hsr] at this
    · intro op hop
      rcases loadPass_ops_mem force renderOf store0 pages op hop with
        ⟨j, hj, he⟩ | ⟨q, hq, pay, hpay, he⟩
      · subst he
        have h1 := full_id_ne_of_mem_eraseSeen pages store0 j hj p hp hf
        have h2 : ¬ j = p.id := fun h => h1 h.symm
        simp [opTouches, h2]
      · subst he
        have hq1 := List.mem_filter.mp hq
        have hqf : q.isFull = true := by
          have := hq1.2
          simp only [Bool.and_eq_true] at this
          exact this.1
        have hqsr : shouldRender force store0 q = true := by
          have := hq1.2
          simp only [Bool.and_eq_true] at this
          exact this.2
        have hne : ¬ q.id = p.id := by
          intro he2
          have hqq : q = p := List.inj_on_of_nodup_map hN
            (List.mem_filter.mpr ⟨hq1.1, by simp [hqf]⟩)
            (List.mem_filter.mpr ⟨hp, by simp [hf]⟩) he2
          rw [hqq, hsr] at hqsr
          cases hqsr
        simp [opTouches, hne]
    · rw [loadPass_get_full force renderOf store0 pages p hN hp hf,
        if_neg (by simp [hsr]), hget]
  · intro p hp hf hget
    rw [loadPass_scheduled_eq]
    refine List.mem_filter.mpr ⟨hp, ?_⟩
    simp [hf, shouldRender, hget]
  · intro hforce hN hR renderOf2
    exact loadPass_second_pass_clean renderOf renderOf2 store0 pages hN hR

theorem loader_skip_and_idempotence_witness :
    (⟨"p", "t", true⟩ : RemotePage) ∉ (loadPass false (fun _ => some ⟨"d", "r"⟩)
        [⟨"p", "t", ⟨"d", "r"⟩⟩] [⟨"p", "t", true⟩]).scheduled ∧
    (⟨"q", "t", true⟩ : RemotePage) ∈ (loadPass false (fun _ => some ⟨"d", "r"⟩)
        [] [⟨"q", "t", true⟩]).scheduled ∧
    (loadPass false (fun _ => some ⟨"d2", "r2"⟩)
        (loadPass false (fun _ => some ⟨"d", "r"⟩) [] [⟨"p", "t", true⟩]).store
        [⟨"p", "t", true⟩]).ops = [] := by
  refine ⟨?_, ?_, ?_⟩
  · exact ((loader_skip_and_idempotence false (fun _ => some ⟨"d", "r"⟩)
      [⟨"p", "t", ⟨"d", "r"⟩⟩] [⟨"p", "t", true⟩]).1 ⟨"p", "t", true⟩ (by decide) rfl rfl
      (by decide) ⟨"p", "t", ⟨"d", "r"⟩⟩ (by decide) rfl).1
  · exact (loader_skip_and_idempotence false (fun _ => some ⟨"d", "r"⟩)
      [] [⟨"q", "t", true⟩]).2.1 ⟨"q", "t", true⟩ (by decide) rfl (by decide)
  · exact (loader_skip_and_idempotence false (fun _ => some ⟨"d", "r"⟩)
      [] [⟨"p", "t", true⟩]).2.2 rfl (by decide) (by decide) (fun _ => some ⟨"d2", "r2"⟩)

/-- C2: every identifier present in the store at the start of a pass and not
observed in the remote enumeration is absent from the store after the pass;
an identifier observed remotely as a full page is removed from the to-delete
set (no delete write names it) and is not deleted: if its entry existed
before the pass, an entry for it still exists after it. -/
theorem loader_deletion_completeness
    (force : Bool) (renderOf : RemotePage → Option RenderPayload) (store0 : Store)
    (pages : List RemotePage) (i : String) :
    (i ∈ storeKeys store0 → (∀ p ∈ pages, p.id ≠ i) →
      i ∉ storeKeys (loadPass force renderOf store0 pages).store) ∧
    (∀ p ∈ pages, p.isFull = true → p.id = i →
      (∀ op ∈ (loadPass force renderOf store0 pages).ops, op ≠ StoreOp.del i) ∧
      (i ∈ storeKeys store0 →
        i ∈ storeKeys (loadPass force renderOf store0 pages).store)) := by
  constructor
  · intro hi hnone hmem
    rw [loadPass_keys_mem] at hmem
    rcases hmem with ⟨_, hnrem⟩ | ⟨p, hpf, _, he⟩
    · exact hnrem (unseen_mem_eraseSeen pages store0 i hi (fun p hp _ => hnone p hp))
    · exact hnone p (List.mem_of_mem_filter hpf) he
  · intro p hp hf hpi
    constructor
    · intro op hop
      rcases loadPass_ops_mem force renderOf store0 pages op hop with
        ⟨j, hj, he⟩ | ⟨q, _, pay, _, he⟩
      · subst he
        intro hcon
        injection hcon with hji
        exact full_id_ne_of_mem_eraseSeen pages store0 j hj p hp hf (hpi.trans hji.symm)
      · subst he
        intro hcon
        cases hcon
    · intro hi
      rw [loadPass_keys_mem]
      left
      refine ⟨hi, ?_⟩
      intro hrem
      exact full_id_ne_of_mem_eraseSeen pages store0 i hrem p hp hf hpi

theorem loader_deletion_completeness_witness :
    "gone" ∉ storeKeys (loadPass false (fun _ => some ⟨"d", "r"⟩)
        [⟨"gone", "t0", ⟨"d", "r"⟩⟩] []).store ∧
    (∀ op ∈ (loadPass false (fun _ => some ⟨"d", "r"⟩)
        [⟨"p", "t0", ⟨"d", "r"⟩⟩] [⟨"p", "t1", true⟩]).ops, op ≠ StoreOp.del "p") ∧
    "p" ∈ storeKeys (loadPass false (fun _ => some ⟨"d", "r"⟩)
        [⟨"p", "t0", ⟨"d", "r"⟩⟩] [⟨"p", "t1", true⟩]).store := by
  refine ⟨?_, ?_, ?_⟩
  · exact (loader_deletion_completeness false (fun _ => some ⟨"d", "r"⟩)
      [⟨"gone", "t0", ⟨"d", "r"⟩⟩] [] "gone").1 (by decide) (by decide)
  · exact ((loader_deletion_completeness false (fun _ => some ⟨"d", "r"⟩)
      [⟨"p", "t0", ⟨"d", "r"⟩⟩] [⟨"p", "t1", true⟩] "p").2 ⟨"p", "t1", true⟩
      (by decide) rfl rfl).1
  · exact ((loader_deletion_completeness false (fun _ => some ⟨"d", "r"⟩)
      [⟨"p", "t0", ⟨"d", "r"⟩⟩] [⟨"p", "t1", true⟩] "p").2 ⟨"p", "t1", true⟩
      (by decide) rfl rfl).2 (by decide)

/-- C10: a partial record is never marked as seen remotely: when the
enumeration yields only a partial record for an identifier the store knows,
the identifier is nevertheless deleted from the store by the end of the
pass. -/
theorem loader_partial_record_deleted
    (force : Bool) (renderOf : RemotePage → Option RenderPayload) (store0 : Store)
    (pages : List RemotePage) (p : RemotePage)
    (hp : p ∈ pages) (hpart : p.isFull = false) (hin : p.id ∈ storeKeys store0)
    (hnofull : ∀ q ∈ pages, q.isFull = true → q.id ≠ p.id) :
    p.id ∉ storeKeys (loadPass force renderOf store0 pages).store := by
  intro hmem
  rw [loadPass_keys_mem] at hmem
  rcases hmem with ⟨_, hnrem⟩ | ⟨q, hqf, _, he⟩
  · exact hnrem (unseen_mem_eraseSeen pages store0 p.id hin hnofull)
  · have h1 := List.mem_filter.mp hqf
    have hqfull : q.isFull = true := by
      have := h1.2
      simp only [Bool.and_eq_true] at this
      exact this.1
    exact hnofull q h1.1 hqfull he

theorem loader_partial_record_deleted_witness :
    "p" ∉ storeKeys (loadPass false (fun _ => some ⟨"d", "r"⟩)
        [⟨"p", "t0", ⟨"d", "r"⟩⟩] [⟨"p", "t1", false⟩]).store := by
  have h := loader_partial_record_deleted false (fun _ => some ⟨"d", "r"⟩)
    [⟨"p", "t0", ⟨"d", "r"⟩⟩] [⟨"p", "t1", false⟩] ⟨"p", "t1", false⟩
    (by decide) rfl (by decide) (by decide)
  exact h

/-- C6: whichever stage of a document's render raises (metadata construction,
block fetch, or a transform stage), that render yields the empty result; the
loader then performs no write for that document (its entry is left as it was,
present or absent), while a document whose scheduled render succeeded still
gets its entry written, so the pass is not aborted by the failure. -/
theorem render_failure_isolated (stages : RemotePage → RenderStages) (force : Bool)
    (store0 : Store) (pages : List RemotePage) (d : RemotePage) :
    (∀ e, (stages d).pageData = .error e → render (stages d) = none) ∧
    (∀ e, (stages d).blocks = .error e → render (stages d) = none) ∧
    (∀ bs e, (stages d).blocks = .ok bs → (stages d).processOut bs = .error e →
      render (stages d) = none) ∧
    (((pages.filter (·.isFull)).map (·.id)).Nodup → d ∈ pages → d.isFull = true →
      render (stages d) = none →
      storeGet (loadPass force (fun p => render (stages p)) store0 pages).store d.id =
        storeGet store0 d.id) ∧
    (((pages.filter (·.isFull)).map (·.id)).Nodup → ∀ q ∈ pages, q.isFull = true →
      shouldRender force store0 q = true →
      ∀ pay, render (stages q) = some pay →
        storeGet (loadPass force (fun p => render (stages p)) store0 pages).store q.id =
          some ⟨q.id, q.last_edited_time, pay⟩) := by
  refine ⟨?_, ?_, ?_, ?_, ?_⟩
  · intro e he
    simp [render, he]
  · intro e he
    cases hpd : (stages d).pageData <;> simp [render, he, hpd]
  · intro bs e hbs hpo
    cases hpd : (stages d).pageData <;> simp [render, hbs, hpo, hpd]
  · intro hN hd hf hnone
    rw [loadPass_get_full force (fun p => render (stages p)) store0 pages d hN hd hf]
    by_cases hsr : shouldRender force store0 d
    · rw [if_pos hsr]
      simp [hnone]
    · rw [if_neg hsr]
  · intro hN q hq hf hsr pay hpay
    rw [loadPass_get_full force (fun p => render (stages p)) store0 pages q hN hq hf,
      if_pos hsr]
    simp [hpay]

theorem render_failure_isolated_witness :
    render ⟨Except.error "boom", Except.ok [], fun _ => Except.ok "h"⟩ = none ∧
    render ⟨Except.ok "d", Except.error "boom", fun _ => Except.ok "h"⟩ = none ∧
    render ⟨Except.ok "d", Except.ok [], fun _ => Except.error "boom"⟩ = none ∧
    storeGet (loadPass false
        (fun p => render (if p.id = "bad" then ⟨Except.error "boom", Except.ok [], fun _ => Except.ok "h"⟩
          else ⟨Except.ok "d", Except.ok [], fun _ => Except.ok "h"⟩))
        [⟨"bad", "t0", ⟨"d0", "r0"⟩⟩]
        [⟨"bad", "t1", true⟩, ⟨"good", "t1", true⟩]).store "bad" =
      some ⟨"bad", "t0", ⟨"d0", "r0"⟩⟩ ∧
    storeGet (loadPass false
        (fun p => render (if p.id = "bad" then ⟨Except.error "boom", Except.ok [], fun _ => Except.ok "h"⟩
          else ⟨Except.ok "d", Except.ok [], fun _ => Except.ok "h"⟩))
        [⟨"bad", "t0", ⟨"d0", "r0"⟩⟩]
        [⟨"bad", "t1", true⟩, ⟨"good", "t1", true⟩]).store "good" =
      some ⟨"good", "t1", ⟨"d", "h"⟩⟩ := by
  refine ⟨?_, ?_, ?_, ?_, ?_⟩
  · exact (render_failure_isolated
      (fun _ => ⟨Except.error "boom", Except.ok [], fun _ => Except.ok "h"⟩)
      false [] [] ⟨"x", "t", true⟩).1 "boom" rfl
  · exact (render_failure_isolated
      (fun _ => ⟨Except.ok "d", Except.error "boom", fun _ => Except.ok "h"⟩)
      false [] [] ⟨"x", "t", true⟩).2.1 "boom" rfl
  · exact (render_failure_isolated
      (fun _ => ⟨Except.ok "d", Except.ok [], fun _ => Except.error "boom"⟩)
      false [] [] ⟨"x", "t", true⟩).2.2.1 [] "boom" rfl rfl
  · exact (render_failure_isolated
      (fun p => if p.id = "bad" then ⟨Except.error "boom", Except.ok [], fun _ => Except.ok "h"⟩
        else ⟨Except.ok "d", Except.ok [], fun _ => Except.ok "h"⟩)
      false [⟨"bad", "t0", ⟨"d0", "r0"⟩⟩]
      [⟨"bad", "t1", true⟩, ⟨"good", "t1", true⟩] ⟨"bad", "t1", true⟩).2.2.2.1
      (by decide) (by decide) rfl (by decide)
  · exact (render_failure_isolated
      (fun p => if p.id = "bad" then ⟨Except.error "boom", Except.ok [], fun _ => Except.ok "h"⟩
        else ⟨Except.ok "d", Except.ok [], fun _ => Except.ok "h"⟩)
      false [⟨"bad", "t0", ⟨"d0", "r0"⟩⟩]
      [⟨"bad", "t1", true⟩, ⟨"good", "t1", true⟩] ⟨"bad", "t1", true⟩).2.2.2.2
      (by decide) ⟨"good", "t1", true⟩ (by decide) rfl (by decide) ⟨"d", "h"⟩ (by decide)

/-! ### Asset cache lemmas -/

theorem ensureDir_files (fs : FS) (d : List String) : (ensureDir fs d).files = fs.files := by
  unfold ensureDir
  split <;> rfl

theorem ensureDir_dirs_mem (fs : FS) (d d2 : List String) (h : d2 ∈ fs.dirs) :
    d2 ∈ (ensureDir fs d).dirs := by
  unfold ensureDir
  split
  · exact h
  · exact List.mem_append_left _ h

theorem ensureDir_self_mem (fs : FS) (d : List String) : d ∈ (ensureDir fs d).dirs := by
  unfold ensureDir
  split
  · assumption
  · exact List.mem_append_right _ (List.mem_singleton.mpr rfl)

theorem ensureDir_eq_of_mem (fs : FS) (d : List String) (h : d ∈ fs.dirs) :
    ensureDir fs d = fs := by
  unfold ensureDir
  rw [if_pos h]

theorem writeFileFS_dirs (fs : FS) (f : List String) : (writeFileFS fs f).dirs = fs.dirs := by
  unfold writeFileFS
  split <;> rfl

theorem writeFileFS_self_mem (fs : FS) (f : List String) : f ∈ (writeFileFS fs f).files := by
  unfold writeFileFS
  split
  · assumption
  · exact List.mem_append_right _ (List.mem_singleton.mpr rfl)

/-- C5: two resolutions whose URLs share the same pathname (they differ only
in their query string), with the ignore-cache override unset: after the first
resolution succeeds, the second resolves to the same local path (absolute and
relative), is reported as a cache hit, performs no network fetch, and leaves
the filesystem unchanged. -/
theorem asset_cache_hit_on_query_rotation (cwd : List String) (u1 u2 : String)
    (root : List String) (fs : FS) (r1 : DownloadResult)
    (hpath : urlPathname u2 = urlPathname u1)
    (h1 : downloadFile cwd u1 root false fs = .ok r1) :
    downloadFile cwd u2 root false r1.fs =
      .ok ⟨r1.fs, r1.filePath, r1.relPath, AssetTag.cached, false⟩ := by
  by_cases hroot : root ∈ fs.dirs
  · cases hu : urlPathname u1 with
    | none => simp [downloadFile, hroot, hu] at h1
    | some pn =>
      cases hsegs : (jsSplit '/' pn).filter (fun x => !decide (x = "")) with
      | nil => simp [downloadFile, hroot, hu, hsegs] at h1
      | cons a t1 =>
        cases t1 with
        | nil => simp [downloadFile, hroot, hu, hsegs] at h1
        | cons b t2 =>
          cases t2 with
          | nil => simp [downloadFile, hroot, hu, hsegs] at h1
          | cons fn t3 =>
            have hfacts : r1.fs.dirs = (ensureDir fs (root ++ [b])).dirs ∧
                r1.filePath = root ++ [b, fn] ∧
                r1.relPath = pathRelative (cwd ++ VIRTUAL_CONTENT_ROOT) (root ++ [b, fn]) ∧
                (root ++ [b, fn]) ∈ r1.fs.files := by
              by_cases hcache : (root ++ [b, fn]) ∈ (ensureDir fs (root ++ [b])).files
              · have h2 : downloadFile cwd u1 root false fs =
                    .ok ⟨ensureDir fs (root ++ [b]), root ++ [b, fn],
                      pathRelative (cwd ++ VIRTUAL_CONTENT_ROOT) (root ++ [b, fn]),
                      AssetTag.cached, false⟩ := by
                  simp [downloadFile, hroot, hu, hsegs, hcache]
                rw [h2] at h1
                injection h1 with h1
                rw [← h1]
                exact ⟨rfl, rfl, rfl, hcache⟩
              · have h2 : downloadFile cwd u1 root false fs =
                    .ok ⟨writeFileFS (ensureDir fs (root ++ [b])) (root ++ [b, fn]),
                      root ++ [b, fn],
                      pathRelative (cwd ++ VIRTUAL_CONTENT_ROOT) (root ++ [b, fn]),
                      AssetTag.download, true⟩ := by
                  simp [downloadFile, hroot, hu, hsegs, hcache]
                rw [h2] at h1
                injection h1 with h1
                rw [← h1]
                exact ⟨writeFileFS_dirs _ _, rfl, rfl, writeFileFS_self_mem _ _⟩
            obtain ⟨hdirs, hfp, hrel, hfile⟩ := hfacts
            have hroot2 : root ∈ r1.fs.dirs := by
              rw [hdirs]
              exact ensureDir_dirs_mem fs (root ++ [b]) root hroot
            have hsub2 : (root ++ [b]) ∈ r1.fs.dirs := by
              rw [hdirs]
              exact ensureDir_self_mem fs (root ++ [b])
            have hens2 : ensureDir r1.fs (root ++ [b]) = r1.fs :=
              ensureDir_eq_of_mem r1.fs (root ++ [b]) hsub2
            have hu2 : urlPathname u2 = some pn := hpath.trans hu
            have hfile2 : (root ++ [b, fn]) ∈ (ensureDir r1.fs (root ++ [b])).files := by
              rw [ensureDir_files]
              exact hfile
            have h3 : downloadFile cwd u2 root false r1.fs =
                Except.ok ⟨ensureDir r1.fs (root ++ [b]), root ++ [b, fn],
                  pathRelative (cwd ++ VIRTUAL_CONTENT_ROOT) (root ++ [b, fn]),
                  AssetTag.cached, false⟩ := by
              simp [downloadFile, hroot2, hu2, hsegs, hfile2]
            rw [h3, hens2, ← hfp, hrel, hfp]
  · simp [downloadFile, hroot] at h1

theorem asset_cache_hit_on_query_rotation_witness :
    downloadFile ["cwd"] "https://h.example/a/b/c.png?sig=2" ["root"] false
        (⟨[["root"], ["root", "b"]], [["root", "b", "c.png"]]⟩ : FS) =
      Except.ok ⟨⟨[["root"], ["root", "b"]], [["root", "b", "c.png"]]⟩,
        ["root", "b", "c.png"],
        ["..", "..", "..", "..", "root", "b", "c.png"], AssetTag.cached, false⟩ := by
  exact asset_cache_hit_on_query_rotation ["cwd"]
    "https://h.example/a/b/c.png?sig=1" "https://h.example/a/b/c.png?sig=2" ["root"]
    ⟨[["root"]], []⟩
    ⟨⟨[["root"], ["root", "b"]], [["root", "b", "c.png"]]⟩, ["root", "b", "c.png"],
      ["..", "..", "..", "..", "root", "b", "c.png"], AssetTag.download, true⟩
    (by decide) (by decide)

/-- C4 counterexample: for a URL whose pathname has four non-empty segments,
the code saves under the second and third segments (b/c), not under the
claimed second-to-last and last segments (c/d.png): the derived path differs
from the path the claim describes. -/
theorem asset_save_path_counterexample :
    (downloadFile ["cwd"] "https://h.example/a/b/c/d.png" ["root"] false
        ⟨[["root"]], []⟩).map (·.filePath) = Except.ok ["root", "b", "c"] ∧
    claimSavePath "https://h.example/a/b/c/d.png" ["root"] =
      some ["root", "c", "d.png"] ∧
    (Except.ok ["root", "b", "c"] : Except String (List String)) ≠
      Except.ok ["root", "c", "d.png"] := by
  decide

/-- C4 amended: the save path is destinationRoot/objId/fileName where objId
and fileName are the second and third non-empty path segments of the URL's
pathname (for the three-segment object-store URLs this loader targets these
coincide with the claimed second-to-last and last segments), and the query
string is discarded: the outcome depends only on the URL's pathname. -/
theorem asset_save_path_amended (cwd : List String) (url : String) (root : List String)
    (ic : Bool) (fs : FS) (pn parentId objId fileName : String) (rest : List String)
    (hroot : root ∈ fs.dirs)
    (hu : urlPathname url = some pn)
    (hsegs : (jsSplit '/' pn).filter (fun x => !decide (x = "")) =
      parentId :: objId :: fileName :: rest) :
    (∃ r, downloadFile cwd url root ic fs = .ok r ∧
      r.filePath = root ++ [objId, fileName]) ∧
    (rest = [] → claimSavePath url root = some (root ++ [objId, fileName])) ∧
    (∀ url2, urlPathname url2 = some pn →
      downloadFile cwd url2 root ic fs = downloadFile cwd url root ic fs) := by
  refine ⟨?_, ?_, ?_⟩
  · by_cases hcache : ic = true ∨ (root ++ [objId, fileName]) ∉
        (ensureDir fs (root ++ [objId])).files
    · refine ⟨⟨writeFileFS (ensureDir fs (root ++ [objId])) (root ++ [objId, fileName]),
        root ++ [objId, fileName],
        pathRelative (cwd ++ VIRTUAL_CONTENT_ROOT) (root ++ [objId, fileName]),
        AssetTag.download, true⟩, ?_, rfl⟩
      simp [downloadFile, hroot, hu, hsegs, hcache]
    · refine ⟨⟨ensureDir fs (root ++ [objId]), root ++ [objId, fileName],
        pathRelative (cwd ++ VIRTUAL_CONTENT_ROOT) (root ++ [objId, fileName]),
        AssetTag.cached, false⟩, ?_, rfl⟩
      simp [downloadFile, hroot, hu, hsegs, hcache]
  · intro hrest
    subst hrest
    have hrev : ((jsSplit '/' pn).filter (fun x => !decide (x = ""))).reverse =
        [fileName, objId, parentId] := by
      rw [hsegs]
      rfl
    simp only [claimSavePath, hu]
    have hconv : (jsSplit '/' pn).filter (fun x => decide (x ≠ "")) =
        (jsSplit '/' pn).filter (fun x => !decide (x = "")) := by
      simp only [ne_eq, decide_not]
    rw [hconv, hrev]
  · intro url2 hu2
    simp only [downloadFile, hu, hu2]

theorem asset_save_path_amended_witness :
    (∃ r, downloadFile ["cwd"] "https://h.example/a/b/c.png?sig=1" ["root"] false
        ⟨[["root"]], []⟩ = .ok r ∧ r.filePath = ["root"] ++ ["b", "c.png"]) ∧
    ([] = ([] : List String) →
      claimSavePath "https://h.example/a/b/c.png?sig=1" ["root"] =
        some (["root"] ++ ["b", "c.png"])) ∧
    (∀ url2, urlPathname url2 = some "/a/b/c.png" →
      downloadFile ["cwd"] url2 ["root"] false ⟨[["root"]], []⟩ =
        downloadFile ["cwd"] "https://h.example/a/b/c.png?sig=1" ["root"] false
          ⟨[["root"]], []⟩) := by
  exact asset_save_path_amended ["cwd"] "https://h.example/a/b/c.png?sig=1" ["root"]
    false ⟨[["root"]], []⟩ "/a/b/c.png" "a" "b" "c.png" []
    (by decide) (by decide) (by decide)

/-- C7: downloadFile fails with an error when the destination root directory
does not exist (the cache itself never creates the root: the call returns
before touching the filesystem), and fails when the URL cannot be decomposed
into parent id, object id and file name; the caller's per-asset resolution
(fetchAsset) catches a failing downloadFile and returns the asset reference
unchanged, so the failure does not propagate beyond that asset. -/
theorem asset_failure_policy (cwd : List String) (url : String) (root : List String)
    (ic : Bool) (fs : FS) :
    (root ∉ fs.dirs → downloadFile cwd url root ic fs = .error "Directory does not exist") ∧
    (urlPathname url = none → root ∈ fs.dirs →
      downloadFile cwd url root ic fs = .error "TypeError: Invalid URL") ∧
    (∀ pn, urlPathname url = some pn →
      ((jsSplit '/' pn).filter (fun x => !decide (x = ""))).length < 3 → root ∈ fs.dirs →
      downloadFile cwd url root ic fs = .error "Invalid URL") ∧
    (∀ obj : FileObject, obj.type = "file" →
      ∀ e, downloadFile cwd obj.url root false (ensureDir fs root) = .error e →
        ∀ assetPaths dl cc,
          fetchAsset cwd root true (some obj) fs assetPaths dl cc =
            ⟨some obj, ensureDir fs root, assetPaths, dl, cc⟩) := by
  refine ⟨?_, ?_, ?_, ?_⟩
  · intro hroot
    simp [downloadFile, hroot]
  · intro hu hroot
    simp [downloadFile, hroot, hu]
  · intro pn hu hlen hroot
    cases hsegs : (jsSplit '/' pn).filter (fun x => !decide (x = "")) with
    | nil => simp [downloadFile, hroot, hu, hsegs]
    | cons a t1 =>
      cases t1 with
      | nil => simp [downloadFile, hroot, hu, hsegs]
      | cons b t2 =>
        cases t2 with
        | nil => simp [downloadFile, hroot, hu, hsegs]
        | cons c3 t3 =>
          rw [hsegs] at hlen
          simp at hlen
          omega
  · intro obj htype e he assetPaths dl cc
    simp [fetchAsset, htype, he]

theorem asset_failure_policy_witness :
    downloadFile ["cwd"] "https://h.example/a/b/c.png" ["root"] false
        (⟨[], []⟩ : FS) = .error "Directory does not exist" ∧
    downloadFile ["cwd"] "notaurl" ["root"] false (⟨[["root"]], []⟩ : FS) =
      .error "TypeError: Invalid URL" ∧
    downloadFile ["cwd"] "https://h.example/onlyone" ["root"] false
        (⟨[["root"]], []⟩ : FS) = .error "Invalid URL" ∧
    fetchAsset ["cwd"] ["root"] true (some ⟨"file", "notaurl"⟩) (⟨[], []⟩ : FS) [] 0 0 =
      ⟨some ⟨"file", "notaurl"⟩, ensureDir ⟨[], []⟩ ["root"], [], 0, 0⟩ := by
  refine ⟨?_, ?_, ?_, ?_⟩
  · exact (asset_failure_policy ["cwd"] "https://h.example/a/b/c.png" ["root"] false
      ⟨[], []⟩).1 (by decide)
  · exact (asset_failure_policy ["cwd"] "notaurl" ["root"] false ⟨[["root"]], []⟩).2.1
      (by decide) (by decide)
  · exact (asset_failure_policy ["cwd"] "https://h.example/onlyone" ["root"] false
      ⟨[["root"]], []⟩).2.2.1 "/onlyone" (by decide) (by decide) (by decide)
  · exact (asset_failure_policy ["cwd"] "notaurl" ["root"] false ⟨[], []⟩).2.2.2
      ⟨"file", "notaurl"⟩ rfl "TypeError: Invalid URL" (by decide) [] 0 0

/-! ### Association-list lemmas (properties object, occurrence map) -/

theorem assocGet_nil {α : Type} (k : String) : assocGet ([] : List (String × α)) k = none := rfl

theorem assocGet_cons {α : Type} (k1 : String) (v1 : α) (m : List (String × α)) (k : String) :
    assocGet ((k1, v1) :: m) k = if k1 = k then some v1 else assocGet m k := by
  simp only [assocGet, List.find?]
  by_cases h : k1 = k <;> simp [h]

theorem assocGet_map_ne {α : Type} (m : List (String × α)) (k : String) (v : α) (k2 : String)
    (hne : ¬ k2 = k) :
    assocGet (m.map (fun kv => if kv.1 = k then (k, v) else kv)) k2 = assocGet m k2 := by
  induction m with
  | nil => rfl
  | cons kv m ih =>
    obtain ⟨k1, v1⟩ := kv
    simp only [List.map_cons]
    by_cases h1 : k1 = k
    · simp only [h1, if_pos]
      rw [assocGet_cons, assocGet_cons, ih]
      have h2 : ¬ k = k2 := fun h => hne h.symm
      rw [if_neg h2, if_neg (h1 ▸ h2)]
    · simp only [if_neg h1]
      rw [assocGet_cons, assocGet_cons, ih]

theorem assocGet_map_found {α : Type} (m : List (String × α)) (k : String) (v : α) :
    (∃ w ∈ m, w.1 = k) →
    assocGet (m.map (fun kv => if kv.1 = k then (k, v) else kv)) k = some v := by
  induction m with
  | nil => rintro ⟨w, hw, _⟩; simp at hw
  | cons kv m ih =>
    rintro ⟨w, hw, hwk⟩
    obtain ⟨k1, v1⟩ := kv
    simp only [List.map_cons]
    by_cases h1 : k1 = k
    · simp only [h1, if_pos]
      rw [assocGet_cons, if_pos rfl]
    · simp only [if_neg h1]
      rw [assocGet_cons, if_neg h1]
      apply ih
      cases hw with
      | head => exact absurd hwk h1
      | tail _ hw2 => exact ⟨w, hw2, hwk⟩

theorem assocGet_append_single {α : Type} (m : List (String × α)) (k : String) (v : α)
    (k2 : String) (h : ∀ kv ∈ m, ¬ kv.1 = k) :
    assocGet (m ++ [(k, v)]) k2 = if k = k2 then some v else assocGet m k2 := by
  induction m with
  | nil => rw [List.nil_append, assocGet_cons, assocGet_nil]
  | cons kv m ih =>
    obtain ⟨k1, v1⟩ := kv
    rw [List.cons_append, assocGet_cons, assocGet_cons,
      ih (fun y hy => h y (List.mem_cons_of_mem _ hy))]
    by_cases h1 : k1 = k2
    · have hk : ¬ k = k2 := by
        intro hh
        exact h (k1, v1) (List.mem_cons_self _ m) (by rw [h1, hh])
      rw [if_pos h1, if_neg hk, if_pos h1]
    · rw [if_neg h1, if_neg h1]

theorem assocGet_set_self {α : Type} (m : List (String × α)) (k : String) (v : α) :
    assocGet (assocSet m k v) k = some v := by
  unfold assocSet
  by_cases hany : m.any (·.1 = k) = true
  · rw [if_pos hany]
    rcases List.any_eq_true.mp hany with ⟨w, hw, hwp⟩
    exact assocGet_map_found m k v ⟨w, hw, by simpa using hwp⟩
  · rw [if_neg hany]
    rw [assocGet_append_single m k v k
      (fun kv hkv hp => hany (List.any_eq_true.mpr ⟨kv, hkv, by simpa using hp⟩)),
      if_pos rfl]

theorem assocGet_set_ne {α : Type} (m : List (String × α)) (k : String) (v : α)
    (k2 : String) (hne : ¬ k2 = k) :
    assocGet (assocSet m k v) k2 = assocGet m k2 := by
  unfold assocSet
  by_cases hany : m.any (·.1 = k) = true
  · rw [if_pos hany]
    exact assocGet_map_ne m k v k2 hne
  · rw [if_neg hany]
    rw [assocGet_append_single m k v k2
      (fun kv hkv hp => hany (List.any_eq_true.mpr ⟨kv, hkv, by simpa using hp⟩)),
      if_neg (fun h => hne h.symm)]

theorem occGet_occSet_self (m : List (String × Nat)) (k : String) (v : Nat) :
    occGet (occSet m k v) k = v := by
  simp [occGet, occSet, assocGet_set_self]

/-! ### Table-of-contents lemmas -/

theorem listElementToTree_eq_specOutline (items : List LiNode) (d : Nat) :
    listElementToTree items d = specOutline items d := by
  induction items, d using listElementToTree.induct with
  | case1 d => simp [listElementToTree, specOutline]
  | case2 t h sub rest depth ih1 ih2 =>
    cases sub with
    | none => simp [listElementToTree, specOutline, specOutlineItem, ih2]
    | some subItems =>
      simp only at ih1
      simp [listElementToTree, specOutline, specOutlineItem, ih1, ih2]

theorem listElementToTree_depth_shift (items : List LiNode) (d0 : Nat) : ∀ d : Nat,
    listElementToTree items (d + 1) =
      (listElementToTree items d).map (fun x => ⟨x.depth + 1, x.text, x.slug⟩) := by
  induction items, d0 using listElementToTree.induct with
  | case1 _ => intro d; simp [listElementToTree]
  | case2 t h sub rest depth ih1 ih2 =>
    intro d
    cases sub with
    | none => simp [listElementToTree, ih2]
    | some subItems =>
      simp only at ih1
      simp [listElementToTree, ih1, ih2]

/-- C8: the extraction rejects a non-nav root with an error, and that error
escalates to the document's render failure; on a nav it flattens the nested
list items in document order into the outline the spec describes (depth 0 at
top level, text, slug = href without its leading character); the navigation
element itself is suppressed: the toc stage returns the tree unchanged; and
flattening one nesting level deeper increments every entry's depth by one. -/
theorem toc_extraction_correct (toc : NavNode) (tree : HNode) :
    (toc.tagName ≠ "nav" →
      extractTocHeadings toc = .error ("Expected nav, got " ++ toc.tagName)) ∧
    (∀ (pd : String) (bs : List String) (f : List MarkdownHeading → String),
      toc.tagName ≠ "nav" →
      render ⟨.ok pd, .ok bs, fun _ => (extractTocHeadings toc).map f⟩ = none) ∧
    (toc.tagName = "nav" →
      extractTocHeadings toc = .ok (specOutline toc.firstChild 0) ∧
      applyTocStage toc tree = .ok (tree, specOutline toc.firstChild 0)) ∧
    (∀ (items : List LiNode) (d : Nat),
      listElementToTree items (d + 1) =
        (listElementToTree items d).map (fun x => ⟨x.depth + 1, x.text, x.slug⟩)) := by
  refine ⟨?_, ?_, ?_, ?_⟩
  · intro hnav
    simp [extractTocHeadings, hnav]
  · intro pd bs f hnav
    simp [render, extractTocHeadings, hnav, Except.map]
  · intro hnav
    have hex : extractTocHeadings toc = .ok (specOutline toc.firstChild 0) := by
      simp [extractTocHeadings, hnav, listElementToTree_eq_specOutline]
    refine ⟨hex, ?_⟩
    simp [applyTocStage, customizeTOC, hex, tocPluginApply, Except.map]
  · intro items d
    exact listElementToTree_depth_shift items 0 d

theorem toc_extraction_correct_witness :
    extractTocHeadings ⟨"div", []⟩ = .error ("Expected nav, got " ++ "div") ∧
    render ⟨.ok "d", .ok [],
      fun _ => (extractTocHeadings ⟨"div", []⟩).map (fun _ => "x")⟩ = none ∧
    (extractTocHeadings ⟨"nav", [LiNode.mk "A" "#a" (some [LiNode.mk "B" "#b" none]),
        LiNode.mk "C" "#c" none]⟩ =
      .ok (specOutline [LiNode.mk "A" "#a" (some [LiNode.mk "B" "#b" none]),
        LiNode.mk "C" "#c" none] 0) ∧
     applyTocStage ⟨"nav", [LiNode.mk "A" "#a" (some [LiNode.mk "B" "#b" none]),
        LiNode.mk "C" "#c" none]⟩ (.element "body" [] []) =
      .ok (.element "body" [] [], specOutline [LiNode.mk "A" "#a"
        (some [LiNode.mk "B" "#b" none]), LiNode.mk "C" "#c" none] 0)) ∧
    listElementToTree [LiNode.mk "A" "#a" none] (0 + 1) =
      (listElementToTree [LiNode.mk "A" "#a" none] 0).map
        (fun x => ⟨x.depth + 1, x.text, x.slug⟩) := by
  refine ⟨?_, ?_, ?_, ?_⟩
  · exact (toc_extraction_correct ⟨"div", []⟩ (.element "body" [] [])).1 (by decide)
  · exact (toc_extraction_correct ⟨"div", []⟩ (.element "body" [] [])).2.1 "d" []
      (fun _ => "x") (by decide)
  · exact (toc_extraction_correct ⟨"nav", [LiNode.mk "A" "#a"
      (some [LiNode.mk "B" "#b" none]), LiNode.mk "C" "#c" none]⟩
      (.element "body" [] [])).2.2.1 rfl
  · exact (toc_extraction_correct ⟨"nav", []⟩ (.element "body" [] [])).2.2.2
      [LiNode.mk "A" "#a" none] 0

/-! ### Asset-rewrite stage lemmas -/

theorem starts_dotdot_not_src (s : String) (h : jsStartsWith s "../" = true) :
    jsStartsWith s "src/" = false := by
  unfold jsStartsWith at h ⊢
  have hd1 : ("../" : String).data = ['.', '.', '/'] := rfl
  have hd2 : ("src/" : String).data = ['s', 'r', 'c', '/'] := rfl
  rw [hd1] at h
  rw [hd2]
  cases hs : s.data with
  | nil => rw [hs] at h; simp [List.isPrefixOf] at h
  | cons c rest =>
    rw [hs] at h
    simp only [List.isPrefixOf] at h ⊢
    simp only [Bool.and_eq_true, beq_iff_eq] at h
    have hc : c = '.' := h.1.symm
    subst hc
    simp

theorem visitHref_snd (pr : Props × List (String × Nat)) : (visitHref pr).2 = pr.2 := by
  unfold visitHref
  cases propsGet pr.1 "href" with
  | none => rfl
  | some h => by_cases hs : jsStartsWith h "src/" = true <;> simp [hs]

theorem visitHref_get_ne (pr : Props × List (String × Nat)) (k : String)
    (hk : ¬ k = "href") : propsGet (visitHref pr).1 k = propsGet pr.1 k := by
  unfold visitHref
  cases propsGet pr.1 "href" with
  | none => rfl
  | some h =>
    by_cases hs : jsStartsWith h "src/" = true <;> simp [hs]
    simp [propsGet, propsSet]
    exact assocGet_set_ne pr.1 "href" _ k hk

theorem assocSet_any_ne {α : Type} (m : List (String × α)) (k : String) (v : α)
    (k2 : String) (hne : ¬ k = k2) (h : m.any (·.1 = k2) = false) :
    (assocSet m k v).any (·.1 = k2) = false := by
  unfold assocSet
  rw [List.any_eq_false] at h
  split
  · rw [List.any_eq_false]
    intro kv hkv
    rcases List.mem_map.mp hkv with ⟨kv0, hkv0, hmap⟩
    by_cases hk : kv0.1 = k
    · rw [← hmap]
      simp [hk, hne]
    · rw [← hmap]
      simp only [if_neg hk]
      have := h kv0 hkv0
      simpa using this
  · rw [List.any_eq_false]
    intro kv hkv
    rcases List.mem_append.mp hkv with h1 | h1
    · have := h kv h1
      simpa using this
    · simp only [List.mem_singleton] at h1
      subst h1
      simp [hne]

theorem astro_attrs_replaced (props1 : Props) (payload : String)
    (h : props1.any (·.1 = "__ASTRO_IMAGE_") = false) :
    (propsSet props1 "__ASTRO_IMAGE_" payload).filter
        (fun kv => !(props1.any (·.1 = kv.1))) = [("__ASTRO_IMAGE_", payload)] := by
  unfold propsSet assocSet
  rw [if_neg (by simp [h])]
  rw [List.filter_append]
  have h1 : props1.filter (fun kv => !(props1.any (·.1 = kv.1))) = [] := by
    apply List.filter_eq_nil_iff.mpr
    intro kv hkv
    have hany : props1.any (·.1 = kv.1) = true :=
      List.any_eq_true.mpr ⟨kv, hkv, by simp⟩
    simp [hany]
  have h2 : List.filter (fun kv => !(props1.any (·.1 = kv.1)))
      [("__ASTRO_IMAGE_", payload)] = [("__ASTRO_IMAGE_", payload)] := by
    simp [List.filter, h]
  rw [h1, h2, List.nil_append]

theorem visitElement_astro_eq (assetPaths : List String) (props : Props)
    (occ : List (String × Nat)) (s s2 : String)
    (hsrc : propsGet props "src" = some s) (hne : s ≠ "")
    (hdec : jsDecodeURI? s = some s2)
    (hmem : assetPaths.contains s2 = true)
    (hfmt : isAstroImageFormat s2 = true)
    (hnoast : props.any (·.1 = "__ASTRO_IMAGE_") = false) :
    visitElement assetPaths "img" props occ =
      some ([("__ASTRO_IMAGE_", astroImagePayload (propsSet props "src" s2)
          (occGet occ s2))],
        occSet occ s2 (occGet occ s2 + 1)) := by
  have hmem2 : s2 ∈ assetPaths := by simpa using hmem
  have hnoast1 : (propsSet props "src" s2).any (·.1 = "__ASTRO_IMAGE_") = false := by
    unfold propsSet
    exact assocSet_any_ne props "src" s2 "__ASTRO_IMAGE_" (by decide) hnoast
  simp [visitElement, hsrc, hne, hdec, hmem2, hfmt,
    astro_attrs_replaced (propsSet props "src" s2) _ hnoast1]

theorem visitElement_nonastro_eq (assetPaths : List String) (tag : String) (props : Props)
    (occ : List (String × Nat)) (s s2 : String)
    (hsrc : propsGet props "src" = some s) (hne : s ≠ "")
    (hdec : jsDecodeURI? s = some s2)
    (hna : (tag = "img" && assetPaths.contains s2 && isAstroImageFormat s2) = false) :
    visitElement assetPaths tag props occ =
      some (visitHref (
        (if jsStartsWith s2 "src/" then
          propsSet (if jsStartsWith s2 "../" then
              propsSet (propsSet props "src" s2) "src"
                (String.mk ('/' :: stripDotDotGroups s2.data))
            else propsSet props "src" s2) "src" ("/" ++ jsDrop 4 s2)
        else (if jsStartsWith s2 "../" then
              propsSet (propsSet props "src" s2) "src"
                (String.mk ('/' :: stripDotDotGroups s2.data))
            else propsSet props "src" s2)), occ)) := by
  by_cases hdd : jsStartsWith s2 "../" = true <;>
    by_cases hsr : jsStartsWith s2 "src/" = true <;>
      simp [visitElement, hsrc, hne, hdec, hna, hdd, hsr] <;>
      (intro htag hmem hfmt
       simp [htag, hmem, hfmt] at hna)

/-- C9: for an element with a non-empty src the path is first
percent-decoded (a malformed escape throws a URIError, failing that
document's render); an img whose decoded src is in the cached-asset list
with a recognized raster extension has its whole attribute set replaced by
the single __ASTRO_IMAGE_ attribute whose payload carries the occurrence
index; any other dot-dot-relative or src-rooted src is rewritten to a
site-absolute path, the leading repeated groups matched by the source
regex's wildcard dots (any two non-line-terminator characters before each
slash); a src-rooted href gets the same rewrite but never the optimization
hint; and repeated uses of the same source path receive successive
occurrence indices. -/
theorem rehype_assets_rewrite (assetPaths : List String) (tag : String) (props : Props)
    (occ : List (String × Nat)) (s s2 : String) :
    (propsGet props "src" = some s → s ≠ "" → jsDecodeURI? s = none →
      visitElement assetPaths tag props occ = none) ∧
    (propsGet props "src" = some s → s ≠ "" → jsDecodeURI? s = some s2 →
      (tag = "img" && assetPaths.contains s2 && isAstroImageFormat s2) = false →
      ∃ pr, visitElement assetPaths tag props occ = some pr ∧
        propsGet pr.1 "src" =
          some (if jsStartsWith s2 "../" then String.mk ('/' :: stripDotDotGroups s2.data)
            else if jsStartsWith s2 "src/" then "/" ++ jsDrop 4 s2
            else s2) ∧
        pr.2 = occ) ∧
    (propsGet props "src" = some s → s ≠ "" → jsDecodeURI? s = some s2 → tag = "img" →
      assetPaths.contains s2 = true → isAstroImageFormat s2 = true →
      props.any (·.1 = "__ASTRO_IMAGE_") = false →
      visitElement assetPaths tag props occ =
        some ([("__ASTRO_IMAGE_", astroImagePayload (propsSet props "src" s2)
            (occGet occ s2))],
          occSet occ s2 (occGet occ s2 + 1))) ∧
    (∀ h2, propsGet props "src" = none → propsGet props "href" = some h2 →
      jsStartsWith h2 "src/" = true →
      visitElement assetPaths tag props occ =
        some (propsSet props "href" ("/" ++ jsDrop 4 h2), occ)) ∧
    (propsGet props "src" = none →
      ∃ pr, visitElement assetPaths tag props occ = some pr ∧
        propsGet pr.1 "__ASTRO_IMAGE_" = propsGet props "__ASTRO_IMAGE_") ∧
    (propsGet props "src" = some s → s ≠ "" → jsDecodeURI? s = some s2 →
      assetPaths.contains s2 = true → isAstroImageFormat s2 = true →
      props.any (·.1 = "__ASTRO_IMAGE_") = false →
      (rehypeVisitList assetPaths occ
          [HNode.element "img" props [], HNode.element "img" props []]).map (·.1) =
        some [HNode.element "img" [("__ASTRO_IMAGE_",
            astroImagePayload (propsSet props "src" s2) (occGet occ s2))] [],
          HNode.element "img" [("__ASTRO_IMAGE_",
            astroImagePayload (propsSet props "src" s2) (occGet occ s2 + 1))] []]) := by
  refine ⟨?_, ?_, ?_, ?_, ?_, ?_⟩
  · intro hsrc hne hdec
    simp [visitElement, hsrc, hne, hdec]
  · intro hsrc hne hdec hna
    refine ⟨_, visitElement_nonastro_eq assetPaths tag props occ s s2 hsrc hne hdec hna,
      ?_, ?_⟩
    · rw [visitHref_get_ne _ "src" (by decide)]
      by_cases hdd : jsStartsWith s2 "../" = true
      · have hsr := starts_dotdot_not_src _ hdd
        simp [hdd, hsr, propsGet, propsSet, assocGet_set_self]
      · by_cases hsr : jsStartsWith s2 "src/" = true
        · simp [hdd, hsr, propsGet, propsSet, assocGet_set_self]
        · simp [hdd, hsr, propsGet, propsSet, assocGet_set_self]
    · rw [visitHref_snd]
  · intro hsrc hne hdec htag hmem hfmt hnoast
    subst htag
    exact visitElement_astro_eq assetPaths props occ s s2 hsrc hne hdec hmem hfmt hnoast
  · intro h2 hnosrc hhref hstarts
    simp only [visitElement, hnosrc]
    simp [visitHref, hhref, hstarts]
  · intro hnosrc
    refine ⟨visitHref (props, occ), ?_, ?_⟩
    · simp [visitElement, hnosrc]
    · exact visitHref_get_ne (props, occ) "__ASTRO_IMAGE_" (by decide)
  · intro hsrc hne hdec hmem hfmt hnoast
    have h1 := visitElement_astro_eq assetPaths props occ s s2 hsrc hne hdec hmem hfmt hnoast
    have h2 := visitElement_astro_eq assetPaths props
      (occSet occ s2 (occGet occ s2 + 1)) s s2 hsrc hne hdec hmem hfmt hnoast
    simp [rehypeVisitList, rehypeVisitNode, h1, h2, occGet_occSet_self]

theorem rehype_assets_rewrite_witness :
    visitElement [] "p" [("src", "%zz")] [] = none ∧
    (∃ pr, visitElement [] "p" [("src", "../ab/x%20y.png")] [] = some pr ∧
      propsGet pr.1 "src" = some "/x y.png" ∧ pr.2 = []) ∧
    visitElement ["i.png"] "img" [("src", "i.png"), ("alt", "t")] [] =
      some ([("__ASTRO_IMAGE_", astroImagePayload
          (propsSet [("src", "i.png"), ("alt", "t")] "src" "i.png") (occGet [] "i.png"))],
        occSet [] "i.png" (occGet [] "i.png" + 1)) ∧
    visitElement [] "a" [("href", "src/a.pdf")] [] =
      some (propsSet [("href", "src/a.pdf")] "href" ("/" ++ jsDrop 4 "src/a.pdf"), []) ∧
    (∃ pr, visitElement [] "a" [("href", "src/a.pdf")] [] = some pr ∧
      propsGet pr.1 "__ASTRO_IMAGE_" = propsGet [("href", "src/a.pdf")] "__ASTRO_IMAGE_") ∧
    (rehypeVisitList ["i.png"] []
        [HNode.element "img" [("src", "i.png"), ("alt", "t")] [],
         HNode.element "img" [("src", "i.png"), ("alt", "t")] []]).map (·.1) =
      some [HNode.element "img" [("__ASTRO_IMAGE_", astroImagePayload
          (propsSet [("src", "i.png"), ("alt", "t")] "src" "i.png") (occGet [] "i.png"))] [],
        HNode.element "img" [("__ASTRO_IMAGE_", astroImagePayload
          (propsSet [("src", "i.png"), ("alt", "t")] "src" "i.png")
          (occGet [] "i.png" + 1))] []] := by
  refine ⟨?_, ?_, ?_, ?_, ?_, ?_⟩
  · exact (rehype_assets_rewrite [] "p" [("src", "%zz")] [] "%zz" "").1
      (by decide) (by decide) (by decide)
  · obtain ⟨pr, h1, h2, h3⟩ := (rehype_assets_rewrite [] "p"
      [("src", "../ab/x%20y.png")] [] "../ab/x%20y.png" "../ab/x y.png").2.1
      (by decide) (by decide) (by decide) (by decide)
    exact ⟨pr, h1, h2.trans (by decide), h3⟩
  · exact (rehype_assets_rewrite ["i.png"] "img" [("src", "i.png"), ("alt", "t")] []
      "i.png" "i.png").2.2.1 (by decide) (by decide) (by decide) rfl (by decide)
      (by decide) (by decide)
  · exact (rehype_assets_rewrite [] "a" [("href", "src/a.pdf")] [] "" "").2.2.2.1
      "src/a.pdf" (by decide) (by decide) (by decide)
  · exact (rehype_assets_rewrite [] "a" [("href", "src/a.pdf")] [] "" "").2.2.2.2.1
      (by decide)
  · exact (rehype_assets_rewrite ["i.png"] "img" [("src", "i.png"), ("alt", "t")] []
      "i.png" "i.png").2.2.2.2.2 (by decide) (by decide) (by decide) (by decide)
      (by decide) (by decide)
